import Mathlib

/-! The build driver of oci-image-prototype.

A shallow embedding of `build.go` (`RunBuild`, `Build`, `writeDigest`,
`unpackRootfs`, `writeImageMetadata`, `sanitize`, `buildctl`) and of the request
type of `types.go`.

* Go slices of strings are `List String`.  Every additional target's argument
  slice is made with `make` + `copy`, so it owns a fresh backing array and value
  semantics is exact.
* Go maps are association lists; the order in which `range` visits a map is
  supplied by the environment.
* The operating system, the build daemon, the image library and the parts of the
  repository that are not in the source tree (`LoadRegistry`, `ServeRegistry`,
  `SpawnBuildkitd`, `Cleanup`, `unpackImage`) are the fields of `Sys`, acting on
  an abstract world `W`.
* `path/filepath` and `strings.SplitN` are modelled concretely for Unix paths.
-/

namespace OciImage

/-! ## Go standard library: `strings`, `path/filepath` (Unix) -/

namespace strings

/-- The pieces `strings.SplitN(s, sep, 2)` returns for a one-character
separator, on the characters of `s`: the whole input when `sep` does not occur,
otherwise what precedes the first `sep` and everything after it. -/
def splitN2Chars (sep : Char) : List Char → List (List Char)
  | [] => [[]]
  | c :: cs =>
    if c = sep then [[], cs]
    else
      match splitN2Chars sep cs with
      | [] => [[c]]
      | h :: t => (c :: h) :: t

/-- Go `strings.SplitN(s, sep, 2)` for a one-character separator. -/
def SplitN2 (s : String) (sep : Char) : List String :=
  (splitN2Chars sep s.data).map String.mk

end strings

namespace filepath

/-- The path elements between separators: `a//b` gives `a`, the empty element
and `b`. -/
def splitSep : List Char → List (List Char)
  | [] => [[]]
  | c :: cs =>
    match splitSep cs with
    | [] => [[]]
    | h :: t => if c = '/' then [] :: h :: t else (c :: h) :: t

/-- One step of the loop of `Clean`: `out` holds the elements written so far,
last one first.  Empty and `.` elements are skipped; `..` removes the last real
element, is dropped at the root, and is kept in front of a relative path. -/
def cleanStep (rooted : Bool) (out : List (List Char)) (e : List Char) : List (List Char) :=
  if e = [] ∨ e = ['.'] then out
  else if e = ['.', '.'] then
    match out with
    | [] => if rooted then [] else [e]
    | top :: rest => if top = ['.', '.'] then e :: top :: rest else rest
  else e :: out

/-- The elements joined by single separators. -/
def joinSep : List (List Char) → List Char
  | [] => []
  | [e] => e
  | e :: es => e ++ '/' :: joinSep es

/-- Go `filepath.Clean` on the characters of a Unix path. -/
def cleanChars (p : List Char) : List Char :=
  match p with
  | [] => ['.']
  | c :: _ =>
    let rooted : Bool := c = '/'
    let out := (splitSep p).foldl (cleanStep rooted) []
    let body := joinSep out.reverse
    if rooted then '/' :: body
    else if body = [] then ['.'] else body

/-- Go `filepath.Clean`. -/
def Clean (p : String) : String := String.mk (cleanChars p.data)

/-- The loop of `filepath.Join`: the elements from the first non-empty one on,
joined by separators and cleaned; the empty string when there is none. -/
def Join : List String → String
  | [] => ""
  | e :: es => if e = "" then Join es else Clean ("/".intercalate (e :: es))

/-- The input of `Dir` up to and including its last separator. -/
def dirPart (p : List Char) : List Char :=
  (p.reverse.dropWhile (fun c => c ≠ '/')).reverse

/-- Go `filepath.Dir`: all but the last element of the path, cleaned. -/
def Dir (p : String) : String := String.mk (cleanChars (dirPart p.data))

/-- Go `filepath.Base`: the last element of the path, `.` for the empty path
and `/` for a path of separators only. -/
def Base (p : String) : String :=
  if p = "" then "."
  else
    let stripped := (p.data.reverse.dropWhile (fun c => c = '/'))
    let last := (stripped.takeWhile (fun c => c ≠ '/')).reverse
    if last = [] then "/" else String.mk last

end filepath

/-! ## Data model (`types.go`) and external collaborators -/

/-- The request (`OCIImage` of `types.go`).  The three maps are association
lists. -/
structure OCIImage where
  Debug : Bool
  ContextDir : String
  ContextInputs : List (String × String)
  DockerfilePath : String
  Output : String
  Cache : Bool
  Target : String
  AdditionalTargets : List String
  BuildArgs : List String
  RegistryMirrors : List String
  Labels : List String
  BuildkitSecrets : List (String × String)
  UnpackRootfs : Bool
  ImageArgs : List String
  AddHosts : String
  deriving DecidableEq, Inhabited

/-- The schema of `metadata.json` (`ImageMetadata` of `types.go`). -/
structure ImageMetadata where
  Env : List String
  User : String
  deriving DecidableEq

/-- The options handed to `SpawnBuildkitd`. -/
structure BuildkitdOpts where
  RootDir : String
  ConfigPath : String
  deriving DecidableEq, Inhabited

/-- The handle of a running daemon; `Build` reads its address only. -/
structure Buildkitd where
  Addr : String
  deriving DecidableEq, Inhabited

namespace v1

/-- What `Build` reads of a decoded manifest: `Config.Digest.String()`. -/
structure Manifest where
  ConfigDigest : String
  deriving DecidableEq

/-- What `Build` reads of an image config file: `Config.Env`, `Config.User`. -/
structure ConfigFile where
  Env : List String
  User : String
  deriving DecidableEq

/-- A decoded image (`v1.Image`): the results of its two accessors. -/
structure Image where
  Manifest : Except String Manifest
  ConfigFile : Except String ConfigFile

end v1

/-- How a Go call ends: it returns a value, returns an error, or panics. -/
inductive Outcome (α : Type) where
  | ok (a : α)
  | error (msg : String)
  | panic (msg : String)
  deriving DecidableEq

/-- Observable actions of a run, in the order they happen. -/
inductive Event where
  | spawnBuildkitd
  | loadRegistry (imagePaths : List (String × String))
  | serveRegistry
  | buildctl (addr : String) (args : List String) (err : Option String)
  | finalize (imagePath : String)
  | cleanup
  deriving DecidableEq

/-- Everything outside `build.go`, acting on a world `W` (filesystem, processes);
`R` is the local image registry of the repository.  A call that can fail returns
its error, if any, and the world it leaves. -/
structure Sys (W R : Type) where
  /-- Whether `os.Stat(path)` returns a nil error. -/
  stat : W → String → Bool
  /-- The order in which `range` visits the entries of a map. -/
  rangeMap : List (String × String) → List (String × String)
  rangeMap_perm : ∀ m, (rangeMap m).Perm m
  /-- The repository's `LoadRegistry` on the `imagePaths` map. -/
  loadRegistry : W → List (String × String) → Except String R
  /-- The repository's `ServeRegistry`: the port served. -/
  serveRegistry : W → R → Except String Nat
  /-- The repository's `registry.BuildArgs(port)`. -/
  registryBuildArgs : R → Nat → List String
  /-- Go `exec.Command(path, args...).Run()`. -/
  run : W → String → List String → Option String × W
  /-- Go `tarball.ImageFromPath(path, nil)`. -/
  imageFromPath : W → String → Except String v1.Image
  /-- Go `ioutil.WriteFile(path, data, 0644)`. -/
  writeFile : W → String → String → Option String × W
  /-- The repository's `unpackImage(dest, image, debug)`. -/
  unpackImage : W → String → v1.Image → Bool → Option String × W
  /-- Go `os.Create(path)`. -/
  create : W → String → Option String × W
  /-- Go `json.NewEncoder(file).Encode(v)` on the file created at `path`. -/
  encode : W → String → ImageMetadata → Option String × W
  /-- Go `file.Close()` on the file created at `path`. -/
  close : W → String → Option String × W
  /-- Go `os.Getwd()`. -/
  getwd : W → Except String String
  /-- The repository's `SpawnBuildkitd(img, opts)`. -/
  spawnBuildkitd : W → OCIImage → BuildkitdOpts → Except String Buildkitd × W
  /-- The repository's `buildkitd.Cleanup()`. -/
  cleanup : W → Buildkitd → Option String × W

/-- A Go map assignment `m[k] = v` on an association list. -/
def mapSet (m : List (String × String)) (k v : String) : List (String × String) :=
  if m.any (fun e => e.1 = k) then m.map (fun e => if e.1 = k then (k, v) else e)
  else m ++ [(k, v)]

/-- Go `errors.Wrap(err, msg)` and `fmt.Errorf(msg + ": %w", err)`: the text of
the wrapped error. -/
def wrap (msg err : String) : String := msg ++ ": " ++ err

/-! ## `build.go` -/

/-- Go `sanitize`: defaults the context directory and the dockerfile path; it
never returns an error. -/
def sanitize (img : OCIImage) : Except String OCIImage :=
  let img1 := if img.ContextDir = "" then { img with ContextDir := "." } else img
  let img2 :=
    if img1.DockerfilePath = "" then
      { img1 with DockerfilePath := filepath.Join [img1.ContextDir, "Dockerfile"] }
    else img1
  .ok img2

/-- Go `buildctl`: runs the `buildctl` binary against the daemon at `addr`. -/
def buildctl {W R : Type} (sys : Sys W R) (w : W) (addr : String) (args : List String) :
    Option String × W :=
  sys.run w "buildctl" (("--addr=" ++ addr) :: args)

/-- The loop of `Build` that fills the `imagePaths` map from the image-preload
args: `segs := strings.SplitN(arg, "=", 2); imagePaths[segs[0]] = segs[1]`.
Indexing `segs[1]` panics when the entry has no `=`. -/
def imagePathsLoop : List String → List (String × String) → Outcome (List (String × String))
  | [], m => .ok m
  | arg :: rest, m =>
    let segs := strings.SplitN2 arg '='
    match segs[0]?, segs[1]? with
    | some name, some path => imagePathsLoop rest (mapSet m name path)
    | _, _ => .panic "runtime error: index out of range [1] with length 1"

/-- The `if len(img.ImageArgs) > 0` block of `Build`: the build-arg options of
the preloaded images, and the registry actions performed. -/
def preload {W R : Type} (sys : Sys W R) (w : W) (img : OCIImage) :
    Outcome (List String) × List Event :=
  if img.ImageArgs.length > 0 then
    match imagePathsLoop img.ImageArgs [] with
    | .panic m => (.panic m, [])
    | .error m => (.error m, [])
    | .ok imagePaths =>
      match sys.loadRegistry w imagePaths with
      | .error e => (.error (wrap "create local image registry" e), [.loadRegistry imagePaths])
      | .ok registry =>
        match sys.serveRegistry w registry with
        | .error e =>
          (.error (wrap "serve local image registry" e), [.loadRegistry imagePaths, .serveRegistry])
        | .ok port =>
          (.ok ((sys.registryBuildArgs registry port).foldl
              (fun args arg => args ++ ["--opt", "build-arg:" ++ arg]) []),
            [.loadRegistry imagePaths, .serveRegistry])
  else (.ok [], [])

/-- The value of `buildctlArgs` when the loop over the additional targets
starts (lines 97 to 152), for a sanitized request; `preloaded` is what the
image-preload block appended. -/
def baseArgs {W R : Type} (sys : Sys W R) (w : W) (img : OCIImage) (outputsDir : String)
    (preloaded : List String) : List String :=
  let cacheDir := filepath.Join [outputsDir, "cache"]
  let args0 := ["build", "--progress", "plain", "--frontend", "dockerfile.v0",
    "--local", "context=" ++ img.ContextDir,
    "--local", "dockerfile=" ++ filepath.Dir img.DockerfilePath,
    "--opt", "filename=" ++ filepath.Base img.DockerfilePath]
  let args1 := img.Labels.foldl (fun args arg => args ++ ["--opt", "label:" ++ arg]) args0
  let args2 := img.BuildArgs.foldl (fun args arg => args ++ ["--opt", "build-arg:" ++ arg]) args1
  let args3 := args2 ++ preloaded
  let args4 :=
    if sys.stat w cacheDir then
      args3 ++ ["--export-cache", "type=local,mode=min,dest=" ++ cacheDir]
    else args3
  (sys.rangeMap img.BuildkitSecrets).foldl
    (fun args s => args ++ ["--secret", "id=" ++ s.1 ++ ",src=" ++ s.2]) args4

/-- The three lists `Build` fills while compiling: `builds`, `targets` and
`imagePaths`. -/
structure Plans where
  builds : List (List String)
  targets : List String
  imagePaths : List String
  deriving DecidableEq

/-- One round of the loop over `img.AdditionalTargets` (lines 158 to 179). -/
def targetStep {W R : Type} (sys : Sys W R) (w : W) (outputsDir : String)
    (buildctlArgs : List String) (st : Plans) (t : String) : Plans :=
  let targetArgs := buildctlArgs ++ ["--opt", "target=" ++ t]
  let targetDir := filepath.Join [outputsDir, t]
  if sys.stat w targetDir then
    let imagePath := filepath.Join [targetDir, "image.tar"]
    { builds := st.builds ++ [targetArgs ++ ["--output", "type=docker,dest=" ++ imagePath]],
      targets := st.targets ++ [t],
      imagePaths := st.imagePaths ++ [imagePath] }
  else
    { builds := st.builds ++ [targetArgs],
      targets := st.targets ++ [t],
      imagePaths := st.imagePaths }

/-- Lines 154 to 204 of `Build`: the plans of the additional targets, then the
primary plan, from the base arguments. -/
def plansFrom {W R : Type} (sys : Sys W R) (w : W) (img : OCIImage) (outputsDir : String)
    (buildctlArgs : List String) : Plans :=
  let st := img.AdditionalTargets.foldl (targetStep sys w outputsDir buildctlArgs) ⟨[], [], []⟩
  let finalTargetDir := filepath.Join [outputsDir, "image"]
  let imagePath := filepath.Join [finalTargetDir, "image.tar"]
  let hasOutput := sys.stat w finalTargetDir
  let imagePaths := if hasOutput then st.imagePaths ++ [imagePath] else st.imagePaths
  let args1 :=
    if hasOutput then buildctlArgs ++ ["--output", "type=docker,dest=" ++ imagePath]
    else buildctlArgs
  let args2 := if img.Target ≠ "" then args1 ++ ["--opt", "target=" ++ img.Target] else args1
  let args3 := if img.AddHosts ≠ "" then args2 ++ ["--opt", "add-hosts=" ++ img.AddHosts] else args2
  { builds := st.builds ++ [args3], targets := st.targets ++ [""], imagePaths := imagePaths }

/-- Lines 92 to 204 of `Build`, for the sanitized request: the compiled plans,
or the error or panic that ends `Build` before any plan runs, with the registry
actions performed. -/
def compileSanitized {W R : Type} (sys : Sys W R) (w : W) (img : OCIImage)
    (outputsDir : String) : Outcome Plans × List Event :=
  match preload sys w img with
  | (.panic m, evs) => (.panic m, evs)
  | (.error m, evs) => (.error m, evs)
  | (.ok preloaded, evs) =>
    (.ok (plansFrom sys w img outputsDir (baseArgs sys w img outputsDir preloaded)), evs)

/-- Lines 87 to 204 of `Build`: `sanitize`, then the plans. -/
def compile {W R : Type} (sys : Sys W R) (w : W) (img : OCIImage) (outputsDir : String) :
    Outcome Plans × List Event :=
  match sanitize img with
  | .error e => (.error (wrap "config" e), [])
  | .ok img1 => compileSanitized sys w img1 outputsDir

/-- One call of `buildctl` made by the loop over `builds`: the world it ran in,
the arguments passed and the error returned. -/
structure Invocation (W : Type) where
  before : W
  args : List String
  err : Option String
  deriving DecidableEq

/-- What the loop over `builds` leaves: the calls made, the error `Build`
returns from inside the loop, if any, and the world. -/
structure Executed (W : Type) where
  trace : List (Invocation W)
  err : Option String
  world : W

/-- Lines 218 to 222: the cache-import option is appended when `index.json`
exists in the cache directory. -/
def withImportCache {W R : Type} (sys : Sys W R) (w : W) (cacheDir : String)
    (args : List String) : List String :=
  if sys.stat w (filepath.Join [cacheDir, "index.json"]) then
    args ++ ["--import-cache", "type=local,src=" ++ cacheDir]
  else args

/-- The loop over `builds` (lines 206 to 230); its `return` on a failing call
ends the recursion.  Logging is left out. -/
def runBuilds {W R : Type} (sys : Sys W R) (addr cacheDir : String) :
    W → List (List String) → Executed W
  | w, [] => ⟨[], none, w⟩
  | w, args :: rest =>
    let args1 := withImportCache sys w cacheDir args
    match buildctl sys w addr args1 with
    | (some e, w1) => ⟨[⟨w, args1, some e⟩], some (wrap "build" e), w1⟩
    | (none, w1) =>
      let r := runBuilds sys addr cacheDir w1 rest
      ⟨⟨w, args1, none⟩ :: r.trace, r.err, r.world⟩

/-- Go `writeDigest`. -/
def writeDigest {W R : Type} (sys : Sys W R) (w : W) (dest : String) (image : v1.Image) :
    Option String × W :=
  let digestPath := filepath.Join [dest, "digest"]
  match image.Manifest with
  | .error e => (some (wrap "get image digest" e), w)
  | .ok manifest =>
    match sys.writeFile w digestPath manifest.ConfigDigest with
    | (some e, w1) => (some (wrap "write digest file" e), w1)
    | (none, w1) => (none, w1)

/-- Go `writeImageMetadata`. -/
def writeImageMetadata {W R : Type} (sys : Sys W R) (w : W) (metadataPath : String)
    (image : v1.Image) : Option String × W :=
  match image.ConfigFile with
  | .error e => (some (wrap "load image config" e), w)
  | .ok cfg =>
    match sys.create w metadataPath with
    | (some e, w1) => (some (wrap "create metadata file" e), w1)
    | (none, w1) =>
      match sys.encode w1 metadataPath ⟨cfg.Env, cfg.User⟩ with
      | (some e, w2) => (some (wrap "encode metadata" e), w2)
      | (none, w2) =>
        match sys.close w2 metadataPath with
        | (some e, w3) => (some (wrap "close meta" e), w3)
        | (none, w3) => (none, w3)

/-- Go `unpackRootfs`. -/
def unpackRootfs {W R : Type} (sys : Sys W R) (w : W) (dest : String) (image : v1.Image)
    (img : OCIImage) : Option String × W :=
  let rootfsDir := filepath.Join [dest, "rootfs"]
  let metadataPath := filepath.Join [dest, "metadata.json"]
  match sys.unpackImage w rootfsDir image img.Debug with
  | (some e, w1) => (some (wrap "unpack image" e), w1)
  | (none, w1) =>
    match writeImageMetadata sys w1 metadataPath image with
    | (some e, w2) => (some (wrap "write image metadata" e), w2)
    | (none, w2) => (none, w2)

/-- The body of the loop over `imagePaths` (lines 233 to 250): the finalization
of one tarball. -/
def finalize {W R : Type} (sys : Sys W R) (w : W) (img : OCIImage) (imagePath : String) :
    Option String × W :=
  match sys.imageFromPath w imagePath with
  | .error e => (some (wrap "open oci image" e), w)
  | .ok image =>
    let outputDir := filepath.Dir imagePath
    match writeDigest sys w outputDir image with
    | (some e, w1) => (some e, w1)
    | (none, w1) =>
      if img.UnpackRootfs then
        match unpackRootfs sys w1 outputDir image img with
        | (some e, w2) => (some (wrap "unpack rootfs" e), w2)
        | (none, w2) => (none, w2)
      else (none, w1)

/-- What the loop over `imagePaths` leaves: the tarballs whose finalization was
started, the error `Build` returns from inside the loop, if any, and the
world. -/
structure Finalized (W : Type) where
  paths : List String
  err : Option String
  world : W

/-- The loop over `imagePaths` (lines 232 to 251); its `return` on a failing
finalization ends the recursion. -/
def finalizeAll {W R : Type} (sys : Sys W R) (img : OCIImage) : W → List String → Finalized W
  | w, [] => ⟨[], none, w⟩
  | w, imagePath :: rest =>
    match finalize sys w img imagePath with
    | (some e, w1) => ⟨[imagePath], some e, w1⟩
    | (none, w1) =>
      let r := finalizeAll sys img w1 rest
      ⟨imagePath :: r.paths, r.err, r.world⟩

/-- How a run of `Build` or `RunBuild` ends: what it returns, the world it
leaves and the actions it performed, in order. -/
structure Run (W : Type) where
  result : Outcome Unit
  world : W
  events : List Event

/-- The record of a `buildctl` call in the event log. -/
def Invocation.toEvent {W : Type} (addr : String) (i : Invocation W) : Event :=
  .buildctl addr i.args i.err

/-- Go `Build`.  The registry calls read the world without changing it; setting
the log level has no effect on what is modelled. -/
def Build {W R : Type} (sys : Sys W R) (w : W) (img : OCIImage) (buildkitd : Buildkitd)
    (outputsDir : String) : Run W :=
  match sanitize img with
  | .error e => ⟨.error (wrap "config" e), w, []⟩
  | .ok img1 =>
    let cacheDir := filepath.Join [outputsDir, "cache"]
    match compileSanitized sys w img1 outputsDir with
    | (.panic m, evs) => ⟨.panic m, w, evs⟩
    | (.error m, evs) => ⟨.error m, w, evs⟩
    | (.ok plans, evs) =>
      let r := runBuilds sys buildkitd.Addr cacheDir w plans.builds
      let evs1 := evs ++ r.trace.map (Invocation.toEvent buildkitd.Addr)
      match r.err with
      | some e => ⟨.error e, r.world, evs1⟩
      | none =>
        let f := finalizeAll sys img1 r.world plans.imagePaths
        let evs2 := evs1 ++ f.paths.map Event.finalize
        match f.err with
        | some e => ⟨.error e, f.world, evs2⟩
        | none => ⟨.ok (), f.world, evs2⟩

/-- Go `RunBuild`.  The adjustment of the terminal width is left out: it touches
nothing that is modelled.  A panic of `Build` unwinds through `RunBuild`, which
has no deferred call. -/
def RunBuild {W R : Type} (sys : Sys W R) (w : W) (img : OCIImage) : Run W :=
  match sys.getwd w with
  | .error e => ⟨.error (wrap "get root path" e), w, []⟩
  | .ok wd =>
    let opts : BuildkitdOpts :=
      if sys.stat w "/scratch" then ⟨"/scratch/buildkitd", ""⟩ else ⟨"", ""⟩
    match sys.spawnBuildkitd w img opts with
    | (.error e, w1) => ⟨.error (wrap "start buildkitd" e), w1, []⟩
    | (.ok buildkitd, w1) =>
      let b := Build sys w1 img buildkitd wd
      match b.result with
      | .panic m => ⟨.panic m, b.world, Event.spawnBuildkitd :: b.events⟩
      | .error e => ⟨.error (wrap "build" e), b.world, Event.spawnBuildkitd :: b.events⟩
      | .ok _ =>
        match sys.cleanup b.world buildkitd with
        | (some e, w2) =>
          ⟨.error (wrap "cleanup buildkitd" e), w2,
            Event.spawnBuildkitd :: b.events ++ [Event.cleanup]⟩
        | (none, w2) => ⟨.ok (), w2, Event.spawnBuildkitd :: b.events ++ [Event.cleanup]⟩

/-! ## Vocabulary of the statements -/

/-- Whether `s` begins with `p` (Go `strings.HasPrefix(s, p)`). -/
def startsWith (p s : String) : Bool := p.data.isPrefixOf s.data

/-- The target-selection values among the arguments: `target=<name>`. -/
def targetSelections (args : List String) : List String := args.filter (startsWith "target=")

/-- The `--output` flags among the arguments. -/
def outputFlags (args : List String) : List String := args.filter (fun a => a = "--output")

/-- The output destinations among the arguments: `type=docker,dest=<path>`. -/
def outputValues (args : List String) : List String :=
  args.filter (startsWith "type=docker,dest=")

/-- The extra-hosts values among the arguments: `add-hosts=<mappings>`. -/
def addHostsValues (args : List String) : List String := args.filter (startsWith "add-hosts=")

/-- An argument that is none of the per-plan options: not the `--output` flag,
not an output destination, not a target selection, not an extra-hosts value. -/
def Plain (a : String) : Prop :=
  startsWith "--output" a = false ∧ startsWith "target=" a = false ∧
    startsWith "type=docker,dest=" a = false ∧ startsWith "add-hosts=" a = false

instance (a : String) : Decidable (Plain a) := by unfold Plain; infer_instance

/-- The directory of the plan named `name` under the outputs root. -/
def outputDir (outputsDir name : String) : String := filepath.Join [outputsDir, name]

/-- The tarball path of the plan named `name`: `<outputs>/<name>/image.tar`. -/
def tarballPath (outputsDir name : String) : String :=
  filepath.Join [filepath.Join [outputsDir, name], "image.tar"]

/-- The output option a plan named `name` carries: the one for its tarball when
its directory exists, none otherwise. -/
def outputOption {W R : Type} (sys : Sys W R) (w : W) (outputsDir name : String) : List String :=
  if sys.stat w (outputDir outputsDir name) then
    ["--output", "type=docker,dest=" ++ tarballPath outputsDir name]
  else []

/-- The tarball path a plan named `name` hands to finalization, if any. -/
def outputPath? {W R : Type} (sys : Sys W R) (w : W) (outputsDir name : String) : Option String :=
  if sys.stat w (outputDir outputsDir name) then some (tarballPath outputsDir name) else none

/-- The context path after defaulting. -/
def contextOf (img : OCIImage) : String := if img.ContextDir = "" then "." else img.ContextDir

/-- The dockerfile path after defaulting. -/
def dockerfileOf (img : OCIImage) : String :=
  if img.DockerfilePath = "" then filepath.Join [contextOf img, "Dockerfile"]
  else img.DockerfilePath

/-- The request as `sanitize` leaves it. -/
def defaulted (img : OCIImage) : OCIImage :=
  { img with ContextDir := contextOf img, DockerfilePath := dockerfileOf img }

/-- The arguments every plan starts with, as the specification lists them, for
the secrets visited in the order `secrets`. -/
def specBase (img : OCIImage) (outputsDir : String) (cacheExists : Bool)
    (secrets : List (String × String)) : List String :=
  ["build", "--progress", "plain", "--frontend", "dockerfile.v0",
    "--local", "context=" ++ contextOf img,
    "--local", "dockerfile=" ++ filepath.Dir (dockerfileOf img),
    "--opt", "filename=" ++ filepath.Base (dockerfileOf img)]
  ++ img.Labels.flatMap (fun l => ["--opt", "label:" ++ l])
  ++ img.BuildArgs.flatMap (fun a => ["--opt", "build-arg:" ++ a])
  ++ (if cacheExists then
        ["--export-cache", "type=local,mode=min,dest=" ++ filepath.Join [outputsDir, "cache"]]
      else [])
  ++ secrets.flatMap (fun s => ["--secret", "id=" ++ s.1 ++ ",src=" ++ s.2])

/-- The calls the loop over `builds` makes when no failure stops it: plan after
plan, each in the world the previous call left. -/
def schedule {W R : Type} (sys : Sys W R) (addr cacheDir : String) :
    W → List (List String) → List (Invocation W)
  | _, [] => []
  | w, args :: rest =>
    let args1 := withImportCache sys w cacheDir args
    let r := buildctl sys w addr args1
    ⟨w, args1, r.1⟩ :: schedule sys addr cacheDir r.2 rest

/-! ## A concrete environment

The world is the list of paths that exist.  The daemon fails on the target
`broken`; otherwise it writes the tarball named by `--output` and, when asked to
export the cache, the cache index under `/out/cache`.  The digest file of the
directory `/out/locked` cannot be written. -/

/-- The destination of a `type=docker,dest=<path>` value. -/
def outputDest (arg : String) : Option String :=
  if "type=docker,dest=".data.isPrefixOf arg.data then
    some (String.mk (arg.data.drop "type=docker,dest=".length))
  else none

/-- The request with every field empty. -/
def emptyImage : OCIImage :=
  ⟨false, "", [], "", "", false, "", [], [], [], [], [], false, [], ""⟩

/-- The sample environment. -/
def sampleSys : Sys (List String) (List (String × String)) where
  stat := fun w p => w.contains p
  rangeMap := fun m => m
  rangeMap_perm := fun m => List.Perm.refl m
  loadRegistry := fun _ m => .ok m
  serveRegistry := fun _ _ => .ok 5000
  registryBuildArgs := fun r _ => r.map (fun e => e.1 ++ "=localhost:5000/" ++ e.1)
  run := fun w _ args =>
    if args.contains "target=broken" then (some "exit status 1", w)
    else
      (none, args.filterMap outputDest ++
        (if args.contains "--export-cache" then ["/out/cache/index.json"] else []) ++ w)
  imageFromPath := fun w p =>
    if w.contains p then
      .ok ⟨.ok ⟨"sha256:0000"⟩, .ok ⟨["PATH=/darkness", "BA=nana"], "banana"⟩⟩
    else .error "no such file or directory"
  writeFile := fun w p _ =>
    if p = "/out/locked/digest" then (some "permission denied", w) else (none, p :: w)
  unpackImage := fun w p _ _ => (none, p :: w)
  create := fun w p => (none, p :: w)
  encode := fun w _ _ => (none, w)
  close := fun w _ => (none, w)
  getwd := fun _ => .ok "/out"
  spawnBuildkitd := fun w _ _ => (.ok ⟨"unix:///run/buildkitd.sock"⟩, w)
  cleanup := fun w _ => (none, w)

/-- A request with two additional targets. -/
def twoTargets : OCIImage := { emptyImage with AdditionalTargets := ["a", "b"] }

/-- A world in which the primary plan and target `a` have an output directory,
and target `b` has none. -/
def sampleWorld : List String := ["/out/image", "/out/a"]

/-- The base arguments of `twoTargets`. -/
def twoTargetsBase : List String :=
  ["build", "--progress", "plain", "--frontend", "dockerfile.v0",
    "--local", "context=.", "--local", "dockerfile=.", "--opt", "filename=Dockerfile"]

/-- The plans of `twoTargets` in `sampleWorld` under `/out`. -/
def twoTargetsPlans : Plans :=
  ⟨[twoTargetsBase ++ ["--opt", "target=a", "--output", "type=docker,dest=/out/a/image.tar"],
      twoTargetsBase ++ ["--opt", "target=b"],
      twoTargetsBase ++ ["--output", "type=docker,dest=/out/image/image.tar"]],
    ["a", "b", ""], ["/out/a/image.tar", "/out/image/image.tar"]⟩

/-- A request with one additional target, an explicit target and extra host
mappings. -/
def hostsRequest : OCIImage :=
  { emptyImage with
    AdditionalTargets := ["a"], Target := "final", AddHosts := "test-host=1.2.3.4" }

/-- The plans of `hostsRequest` in `sampleWorld` under `/out`. -/
def hostsPlans : Plans :=
  ⟨[twoTargetsBase ++ ["--opt", "target=a", "--output", "type=docker,dest=/out/a/image.tar"],
      twoTargetsBase ++ ["--output", "type=docker,dest=/out/image/image.tar",
        "--opt", "target=final", "--opt", "add-hosts=test-host=1.2.3.4"]],
    ["a", ""], ["/out/a/image.tar", "/out/image/image.tar"]⟩

/-- A request with a label, a build-arg, a secret and a dockerfile path. -/
def labelled : OCIImage :=
  { emptyImage with
    ContextDir := "ctx", DockerfilePath := "ctx/docker/hello.Dockerfile",
    AdditionalTargets := ["a"], Labels := ["some_label=some_value"],
    BuildArgs := ["some_arg=some_value"], BuildkitSecrets := [("secret", "ctx/secret")] }

/-- The sample world with a cache directory. -/
def cachedWorld : List String := ["/out/image", "/out/a", "/out/cache"]

/-- The handle of the sample daemon. -/
def sampleDaemon : Buildkitd := ⟨"unix:///run/buildkitd.sock"⟩

/-- A request whose second additional target fails to build. -/
def brokenSecond : OCIImage := { emptyImage with AdditionalTargets := ["a", "broken", "c"] }

/-- The plans of `brokenSecond` in `sampleWorld` under `/out`. -/
def brokenSecondPlans : Plans :=
  ⟨[twoTargetsBase ++ ["--opt", "target=a", "--output", "type=docker,dest=/out/a/image.tar"],
      twoTargetsBase ++ ["--opt", "target=broken"],
      twoTargetsBase ++ ["--opt", "target=c"],
      twoTargetsBase ++ ["--output", "type=docker,dest=/out/image/image.tar"]],
    ["a", "broken", "c", ""], ["/out/a/image.tar", "/out/image/image.tar"]⟩

/-- The call made for the first plan of `brokenSecond`; it succeeds. -/
def brokenSecondFirstCall : Invocation (List String) :=
  ⟨sampleWorld,
    twoTargetsBase ++ ["--opt", "target=a", "--output", "type=docker,dest=/out/a/image.tar"],
    none⟩

/-- The call made for the second plan of `brokenSecond`; it fails. -/
def brokenSecondFailedCall : Invocation (List String) :=
  ⟨"/out/a/image.tar" :: sampleWorld, twoTargetsBase ++ ["--opt", "target=broken"],
    some "exit status 1"⟩

/-- The base arguments of `twoTargets` when the cache directory exists. -/
def cachedBase : List String :=
  twoTargetsBase ++ ["--export-cache", "type=local,mode=min,dest=/out/cache"]

/-- The plans of `twoTargets` in `cachedWorld` under `/out`. -/
def cachedBuilds : List (List String) :=
  [cachedBase ++ ["--opt", "target=a", "--output", "type=docker,dest=/out/a/image.tar"],
    cachedBase ++ ["--opt", "target=b"],
    cachedBase ++ ["--output", "type=docker,dest=/out/image/image.tar"]]

/-- The call made for the second plan of `cachedBuilds`: the first call has
left the cache index behind. -/
def cachedSecondCall : Invocation (List String) :=
  ⟨["/out/a/image.tar", "/out/cache/index.json", "/out/image", "/out/a", "/out/cache"],
    cachedBase ++ ["--opt", "target=b", "--import-cache", "type=local,src=/out/cache"], none⟩

/-- The call made for the third plan of `cachedBuilds`. -/
def cachedThirdCall : Invocation (List String) :=
  ⟨["/out/cache/index.json", "/out/a/image.tar", "/out/cache/index.json", "/out/image",
      "/out/a", "/out/cache"],
    cachedBase ++ ["--output", "type=docker,dest=/out/image/image.tar",
      "--import-cache", "type=local,src=/out/cache"], none⟩

/-- A request whose additional target has a directory in which the digest file
cannot be written. -/
def lockedFirst : OCIImage := { emptyImage with AdditionalTargets := ["locked"] }

/-- A world with the directories of the primary plan and of target `locked`. -/
def lockedWorld : List String := ["/out/image", "/out/locked"]

/-- The plans of `lockedFirst` in `lockedWorld` under `/out`. -/
def lockedPlans : Plans :=
  ⟨[twoTargetsBase ++
        ["--opt", "target=locked", "--output", "type=docker,dest=/out/locked/image.tar"],
      twoTargetsBase ++ ["--output", "type=docker,dest=/out/image/image.tar"]],
    ["locked", ""], ["/out/locked/image.tar", "/out/image/image.tar"]⟩

/-- A request with a malformed image-preload entry: it has no `=`. -/
def malformedPreload : OCIImage := { emptyImage with ImageArgs := ["first_image"] }

/-- The finalizations the loop over `imagePaths` starts, each with the world it
runs in: tarball after tarball, up to and including the first that fails. -/
def finalizeTrace {W R : Type} (sys : Sys W R) (img : OCIImage) :
    W → List String → List (W × String)
  | _, [] => []
  | w, imagePath :: rest =>
    match finalize sys w img imagePath with
    | (some _, _) => [(w, imagePath)]
    | (none, w1) => (w, imagePath) :: finalizeTrace sys img w1 rest

/-- A path element that names one directory entry: not empty, without a
separator, and neither `.` nor `..`. -/
def SimpleName (t : String) : Prop :=
  t.data ≠ [] ∧ '/' ∉ t.data ∧ t.data ≠ ['.'] ∧ t.data ≠ ['.', '.']

instance (t : String) : Decidable (SimpleName t) := by unfold SimpleName; infer_instance

/-- A path element `Clean` keeps as it is written: not empty, without a
separator, and neither `.` nor `..`. -/
def RealElem (e : List Char) : Prop := e ≠ [] ∧ '/' ∉ e ∧ e ≠ ['.'] ∧ e ≠ ['.', '.']

/-- The element stacks the loop of `Clean` can hold, last element first: kept
elements on top of leading `..` elements, of which a rooted path has none. -/
def GoodStack (rooted : Bool) (T : List (List Char)) : Prop :=
  ∃ (reals : List (List Char)) (k : Nat), T = reals ++ List.replicate k ['.', '.'] ∧
    (rooted = true → k = 0) ∧ ∀ e ∈ reals, RealElem e

/-- The path `Clean` returns for a non-empty element stack. -/
def renderPath (rooted : Bool) (T : List (List Char)) : List Char :=
  (if rooted then ['/'] else []) ++ filepath.joinSep T.reverse

/-! ## A concrete environment with file contents

The world lists the entries that exist, newest first, each with what it holds.
The daemon writes the tarball named by `--output`; every tarball decodes to the
same image. -/

/-- What a directory entry holds. -/
inductive Content where
  | dir
  | text (data : String)
  | json (record : ImageMetadata)
  deriving DecidableEq

/-- The entry at `path`, if there is one. -/
def lookupEntry (w : List (String × Content)) (path : String) : Option Content :=
  (w.find? (fun e => e.1 = path)).map (fun e => e.2)

/-- The text of the file at `path` (Go `ioutil.ReadFile`). -/
def diskReadFile (w : List (String × Content)) (path : String) : Option String :=
  match lookupEntry w path with
  | some (.text data) => some data
  | _ => none

/-- The record the JSON document at `path` decodes to (Go `json.Unmarshal` of
the file). -/
def diskReadMetadata (w : List (String × Content)) (path : String) : Option ImageMetadata :=
  match lookupEntry w path with
  | some (.json record) => some record
  | _ => none

/-- The image every tarball of the sample disk decodes to. -/
def bananaImage : v1.Image :=
  ⟨.ok ⟨"sha256:5e2b1d"⟩, .ok ⟨["PATH=/darkness", "BA=nana"], "banana"⟩⟩

/-- The sample environment with file contents. -/
def diskSys : Sys (List (String × Content)) Unit where
  stat := fun w p => (lookupEntry w p).isSome
  rangeMap := fun m => m
  rangeMap_perm := fun m => List.Perm.refl m
  loadRegistry := fun _ _ => .ok ()
  serveRegistry := fun _ _ => .ok 5000
  registryBuildArgs := fun _ _ => []
  run := fun w _ args =>
    (none, (args.filterMap outputDest).map (fun p => (p, Content.text "tarball")) ++ w)
  imageFromPath := fun w p =>
    if (lookupEntry w p).isSome then .ok bananaImage else .error "no such file or directory"
  writeFile := fun w p data => (none, (p, Content.text data) :: w)
  unpackImage := fun w p _ _ => (none, (p, Content.dir) :: w)
  create := fun w p => (none, (p, Content.text "") :: w)
  encode := fun w p record => (none, (p, Content.json record) :: w)
  close := fun w _ => (none, w)
  getwd := fun _ => .ok "/out"
  spawnBuildkitd := fun w _ _ => (.ok ⟨"unix:///run/buildkitd.sock"⟩, w)
  cleanup := fun w _ => (none, w)

/-- A disk with the directories of the primary plan and of target `a`. -/
def sampleDisk : List (String × Content) := [("/out/image", .dir), ("/out/a", .dir)]

/-- A request with one additional target that asks for unpacking. -/
def unpackRequest : OCIImage :=
  { emptyImage with AdditionalTargets := ["a"], UnpackRootfs := true }

/-- The plans of `unpackRequest` on `sampleDisk` under `/out`. -/
def unpackPlans : Plans :=
  ⟨[twoTargetsBase ++ ["--opt", "target=a", "--output", "type=docker,dest=/out/a/image.tar"],
      twoTargetsBase ++ ["--output", "type=docker,dest=/out/image/image.tar"]],
    ["a", ""], ["/out/a/image.tar", "/out/image/image.tar"]⟩

/-- The disk after both plans of `unpackRequest` are built. -/
def builtDisk : List (String × Content) :=
  [("/out/image/image.tar", .text "tarball"), ("/out/a/image.tar", .text "tarball"),
    ("/out/image", .dir), ("/out/a", .dir)]

/-- A request with an additional target named like the primary output. -/
def imageTarget : OCIImage := { emptyImage with AdditionalTargets := ["image"] }

/-- A request with two distinct additional target names that clean to the same
directory. -/
def dottedTargets : OCIImage := { emptyImage with AdditionalTargets := ["a", "./a"] }

/-- One finalization of the loop over `imagePaths`: the world it runs in, the
tarball and the error returned. -/
structure Finalization (W : Type) where
  before : W
  imagePath : String
  err : Option String
  deriving DecidableEq

/-- The finalizations the loop over `imagePaths` makes when no failure stops
it: tarball after tarball, each in the world the previous finalization left. -/
def finalizeSchedule {W R : Type} (sys : Sys W R) (img : OCIImage) :
    W → List String → List (Finalization W)
  | _, [] => []
  | w, imagePath :: rest =>
    let r := finalize sys w img imagePath
    ⟨w, imagePath, r.1⟩ :: finalizeSchedule sys img r.2 rest

/-- The plans of `labelled` in `cachedWorld` under `/out`. -/
def labelledPlans : Plans :=
  ⟨[["build", "--progress", "plain", "--frontend", "dockerfile.v0",
        "--local", "context=ctx", "--local", "dockerfile=ctx/docker",
        "--opt", "filename=hello.Dockerfile", "--opt", "label:some_label=some_value",
        "--opt", "build-arg:some_arg=some_value",
        "--export-cache", "type=local,mode=min,dest=/out/cache",
        "--secret", "id=secret,src=ctx/secret",
        "--opt", "target=a", "--output", "type=docker,dest=/out/a/image.tar"],
      ["build", "--progress", "plain", "--frontend", "dockerfile.v0",
        "--local", "context=ctx", "--local", "dockerfile=ctx/docker",
        "--opt", "filename=hello.Dockerfile", "--opt", "label:some_label=some_value",
        "--opt", "build-arg:some_arg=some_value",
        "--export-cache", "type=local,mode=min,dest=/out/cache",
        "--secret", "id=secret,src=ctx/secret",
        "--output", "type=docker,dest=/out/image/image.tar"]],
    ["a", ""], ["/out/a/image.tar", "/out/image/image.tar"]⟩

/-- The world the two builds of `lockedFirst` leave. -/
def lockedBuilt : List String :=
  ["/out/image/image.tar", "/out/locked/image.tar", "/out/image", "/out/locked"]

/-- The finalization of the tarball of `locked`; it fails. -/
def lockedFailed : Finalization (List String) :=
  ⟨lockedBuilt, "/out/locked/image.tar", some "write digest file: permission denied"⟩

/-- The world the three builds of `twoTargets` leave. -/
def twoTargetsBuilt : List String :=
  ["/out/image/image.tar", "/out/a/image.tar", "/out/image", "/out/a"]

/-! ## Lemmas: strings and loops -/

/-- The model of `path/filepath` and `strings.SplitN` on sample inputs. -/
theorem stdlib_model_examples :
    filepath.Join ["/out", "cache"] = "/out/cache" ∧
    filepath.Join ["", ""] = "" ∧
    filepath.Join ["/out", "a/../b"] = "/out/b" ∧
    filepath.Join [".", "Dockerfile"] = "Dockerfile" ∧
    filepath.Dir "/out/image/image.tar" = "/out/image" ∧
    filepath.Dir "Dockerfile" = "." ∧
    filepath.Base "ctx/Dockerfile" = "Dockerfile" ∧
    filepath.Clean "../../a/./b/..//c/" = "../../a/c" ∧
    filepath.Clean "/../a" = "/a" ∧
    strings.SplitN2 "a=b=c" '=' = ["a", "b=c"] ∧
    strings.SplitN2 "abc" '=' = ["abc"] := by
  decide

theorem startsWith_self_append (p x : String) : startsWith p (p ++ x) = true := by
  simp [startsWith, String.data_append]

theorem isPrefixOf_append_false (p q x : List Char)
    (h : (p.take q.length).isPrefixOf q = false) : p.isPrefixOf (q ++ x) = false := by
  rw [Bool.eq_false_iff] at h ⊢
  intro hp
  apply h
  rw [List.isPrefixOf_iff_prefix] at hp ⊢
  have := List.IsPrefix.take hp q.length
  simpa using this

theorem startsWith_append_false (p q x : String)
    (h : (p.data.take q.data.length).isPrefixOf q.data = false) :
    startsWith p (q ++ x) = false := by
  simp only [startsWith, String.data_append]
  exact isPrefixOf_append_false _ _ _ h

theorem plain_append (q x : String)
    (h : ∀ p ∈ ["--output", "target=", "type=docker,dest=", "add-hosts="],
      (String.data p |>.take q.data.length).isPrefixOf q.data = false) : Plain (q ++ x) :=
  ⟨startsWith_append_false _ _ _ (h _ (by simp)), startsWith_append_false _ _ _ (h _ (by simp)),
    startsWith_append_false _ _ _ (h _ (by simp)), startsWith_append_false _ _ _ (h _ (by simp))⟩

theorem Plain.ne_output {a : String} (h : Plain a) : ¬ a = "--output" := by
  intro e
  subst e
  exact absurd h.1 (by decide)

theorem foldl_append_eq_flatMap {α β : Type} (f : α → List β) (l : List α) (init : List β) :
    l.foldl (fun acc a => acc ++ f a) init = init ++ l.flatMap f := by
  induction l generalizing init with
  | nil => simp
  | cons a l ih => simp [ih, List.append_assoc]

theorem sanitize_eq (img : OCIImage) :
    sanitize img = .ok (defaulted img) := by
  unfold sanitize defaulted dockerfileOf contextOf
  by_cases h1 : img.ContextDir = "" <;> by_cases h2 : img.DockerfilePath = "" <;> simp [h1, h2]

theorem baseArgs_eq {W R : Type} (sys : Sys W R) (w : W) (img : OCIImage) (outputsDir : String)
    (preloaded : List String) :
    baseArgs sys w img outputsDir preloaded =
      ["build", "--progress", "plain", "--frontend", "dockerfile.v0",
        "--local", "context=" ++ img.ContextDir,
        "--local", "dockerfile=" ++ filepath.Dir img.DockerfilePath,
        "--opt", "filename=" ++ filepath.Base img.DockerfilePath]
      ++ img.Labels.flatMap (fun l => ["--opt", "label:" ++ l])
      ++ img.BuildArgs.flatMap (fun a => ["--opt", "build-arg:" ++ a])
      ++ preloaded
      ++ (if sys.stat w (filepath.Join [outputsDir, "cache"]) then
            ["--export-cache", "type=local,mode=min,dest=" ++ filepath.Join [outputsDir, "cache"]]
          else [])
      ++ (sys.rangeMap img.BuildkitSecrets).flatMap
          (fun s => ["--secret", "id=" ++ s.1 ++ ",src=" ++ s.2]) := by
  unfold baseArgs
  simp only [foldl_append_eq_flatMap]
  by_cases h : sys.stat w (filepath.Join [outputsDir, "cache"]) = true <;> simp [h]

theorem plain_of_mem_baseArgs {W R : Type} (sys : Sys W R) (w : W) (img : OCIImage)
    (outputsDir : String) (preloaded : List String) (hpre : ∀ a ∈ preloaded, Plain a) :
    ∀ a ∈ baseArgs sys w img outputsDir preloaded, Plain a := by
  intro a ha
  rw [baseArgs_eq] at ha
  simp only [List.mem_append, List.mem_flatMap, List.mem_cons, List.mem_singleton,
    List.not_mem_nil, or_false] at ha
  rcases ha with ((((h | ⟨l, -, h⟩) | ⟨b, -, h⟩) | h) | h) | ⟨s, -, h⟩
  · rcases h with h | h | h | h | h | h | h | h | h | h | h <;> subst h <;>
      first
        | decide
        | exact plain_append _ _ (by decide)
  · rcases h with h | h <;> subst h
    · decide
    · exact plain_append _ _ (by decide)
  · rcases h with h | h <;> subst h
    · decide
    · exact plain_append _ _ (by decide)
  · exact hpre a h
  · split at h
    · simp only [List.mem_cons, List.mem_singleton, List.not_mem_nil, or_false] at h
      rcases h with h | h <;> subst h
      · decide
      · exact plain_append _ _ (by decide)
    · simp at h
  · rcases h with h | h <;> subst h
    · decide
    · rw [String.append_assoc, String.append_assoc]
      exact plain_append _ _ (by decide)

theorem plain_of_mem_preload {W R : Type} (sys : Sys W R) (w : W) (img : OCIImage)
    (preloaded : List String) (h : (preload sys w img).1 = .ok preloaded) :
    ∀ a ∈ preloaded, Plain a := by
  unfold preload at h
  split at h
  · split at h
    · simp at h
    · simp at h
    · split at h
      · simp at h
      · split at h
        · simp at h
        · simp only [Outcome.ok.injEq] at h
          subst h
          intro a ha
          rw [foldl_append_eq_flatMap] at ha
          simp only [List.nil_append, List.mem_flatMap, List.mem_cons, List.mem_singleton,
            List.not_mem_nil, or_false] at ha
          obtain ⟨b, -, hb | hb⟩ := ha
          · subst hb; decide
          · subst hb; exact plain_append _ _ (by decide)
  · simp only [Outcome.ok.injEq] at h
    subst h
    simp

theorem preload_nil {W R : Type} (sys : Sys W R) (w : W) (img : OCIImage)
    (h : img.ImageArgs = []) : preload sys w img = (.ok [], []) := by
  simp [preload, h]

theorem foldl_targetStep {W R : Type} (sys : Sys W R) (w : W) (outputsDir : String)
    (base : List String) (ts : List String) (st : Plans) :
    ts.foldl (targetStep sys w outputsDir base) st =
      ⟨st.builds ++ ts.map
          (fun t => base ++ ["--opt", "target=" ++ t] ++ outputOption sys w outputsDir t),
        st.targets ++ ts,
        st.imagePaths ++ ts.filterMap (outputPath? sys w outputsDir)⟩ := by
  induction ts generalizing st with
  | nil => simp
  | cons t ts ih =>
    rw [List.foldl_cons, ih]
    by_cases h : sys.stat w (filepath.Join [outputsDir, t]) = true
    · simp [targetStep, outputOption, outputPath?, outputDir, tarballPath, h,
        List.filterMap_cons]
    · simp [targetStep, outputOption, outputPath?, outputDir, tarballPath, h,
        List.filterMap_cons]

/-- The primary plan over the base arguments `base`. -/
theorem plansFrom_eq {W R : Type} (sys : Sys W R) (w : W) (img : OCIImage) (outputsDir : String)
    (base : List String) :
    plansFrom sys w img outputsDir base =
      ⟨img.AdditionalTargets.map
          (fun t => base ++ ["--opt", "target=" ++ t] ++ outputOption sys w outputsDir t)
          ++ [base ++ outputOption sys w outputsDir "image"
            ++ (if img.Target = "" then [] else ["--opt", "target=" ++ img.Target])
            ++ (if img.AddHosts = "" then [] else ["--opt", "add-hosts=" ++ img.AddHosts])],
        img.AdditionalTargets ++ [""],
        img.AdditionalTargets.filterMap (outputPath? sys w outputsDir)
          ++ (outputPath? sys w outputsDir "image").toList⟩ := by
  unfold plansFrom
  simp only [foldl_targetStep, outputOption, outputPath?, outputDir, tarballPath]
  by_cases h : sys.stat w (filepath.Join [outputsDir, "image"]) = true <;>
  by_cases h1 : img.Target = "" <;> by_cases h2 : img.AddHosts = "" <;>
  simp [h, h1, h2]

/-- What a successful compilation is: the image-preload block succeeded on the
defaulted request, and the plans are built over its base arguments. -/
theorem compile_ok_iff {W R : Type} (sys : Sys W R) (w : W) (img : OCIImage) (outputsDir : String)
    (plans : Plans) :
    (compile sys w img outputsDir).1 = .ok plans ↔
      ∃ preloaded,
        (preload sys w (defaulted img)).1 = .ok preloaded ∧
        plans = plansFrom sys w (defaulted img) outputsDir
          (baseArgs sys w (defaulted img) outputsDir preloaded) := by
  unfold compile
  rw [sanitize_eq]
  simp only [compileSanitized]
  split
  · rename_i m evs heq
    simp [heq]
  · rename_i m evs heq
    simp [heq]
  · rename_i pre evs heq
    simp only [heq, Outcome.ok.injEq]
    constructor
    · intro h; exact ⟨pre, rfl, h.symm⟩
    · rintro ⟨p, hp, rfl⟩; rw [hp]

theorem targetSelections_plain (base : List String) (h : ∀ a ∈ base, Plain a) :
    targetSelections base = [] := by
  simp only [targetSelections, List.filter_eq_nil_iff]
  intro a ha
  simp [(h a ha).2.1]

theorem outputValues_plain (base : List String) (h : ∀ a ∈ base, Plain a) :
    outputValues base = [] := by
  simp only [outputValues, List.filter_eq_nil_iff]
  intro a ha
  simp [(h a ha).2.2.1]

theorem addHostsValues_plain (base : List String) (h : ∀ a ∈ base, Plain a) :
    addHostsValues base = [] := by
  simp only [addHostsValues, List.filter_eq_nil_iff]
  intro a ha
  simp [(h a ha).2.2.2]

theorem outputFlags_plain (base : List String) (h : ∀ a ∈ base, Plain a) :
    outputFlags base = [] := by
  simp only [outputFlags, List.filter_eq_nil_iff]
  intro a ha
  simpa using (h a ha).ne_output

theorem startsWith_target (p x : String) (hp : p ∈ ["--output", "type=docker,dest=", "add-hosts="])
    : startsWith p ("target=" ++ x) = false := by
  simp only [List.mem_cons, List.mem_singleton, List.not_mem_nil, or_false] at hp
  rcases hp with h | h | h <;> subst h <;> exact startsWith_append_false _ _ _ (by decide)

theorem startsWith_dest (p x : String) (hp : p ∈ ["--output", "target=", "add-hosts="]) :
    startsWith p ("type=docker,dest=" ++ x) = false := by
  simp only [List.mem_cons, List.mem_singleton, List.not_mem_nil, or_false] at hp
  rcases hp with h | h | h <;> subst h <;> exact startsWith_append_false _ _ _ (by decide)

theorem startsWith_addHosts (p x : String)
    (hp : p ∈ ["--output", "target=", "type=docker,dest="]) :
    startsWith p ("add-hosts=" ++ x) = false := by
  simp only [List.mem_cons, List.mem_singleton, List.not_mem_nil, or_false] at hp
  rcases hp with h | h | h <;> subst h <;> exact startsWith_append_false _ _ _ (by decide)

theorem ne_output_of_startsWith {a : String} (h : startsWith "--output" a = false) :
    ¬ a = "--output" := by
  intro e
  subst e
  exact absurd h (by decide)

/-- The per-plan options of the plan of an additional target `t` over plain
base arguments. -/
theorem targetPlan_options {W R : Type} (sys : Sys W R) (w : W) (outputsDir : String)
    (base : List String) (hb : ∀ a ∈ base, Plain a) (t : String) :
    targetSelections (base ++ ["--opt", "target=" ++ t] ++ outputOption sys w outputsDir t)
        = ["target=" ++ t] ∧
      outputFlags (base ++ ["--opt", "target=" ++ t] ++ outputOption sys w outputsDir t)
        = (if sys.stat w (outputDir outputsDir t) then ["--output"] else []) ∧
      outputValues (base ++ ["--opt", "target=" ++ t] ++ outputOption sys w outputsDir t)
        = (if sys.stat w (outputDir outputsDir t) then
            ["type=docker,dest=" ++ tarballPath outputsDir t] else []) ∧
      addHostsValues (base ++ ["--opt", "target=" ++ t] ++ outputOption sys w outputsDir t)
        = [] := by
  have h1 := targetSelections_plain base hb
  have h2 := outputFlags_plain base hb
  have h3 := outputValues_plain base hb
  have h4 := addHostsValues_plain base hb
  have t1 := startsWith_self_append "target=" t
  have t2 := ne_output_of_startsWith (startsWith_target "--output" t (by simp))
  have t3 := startsWith_target "type=docker,dest=" t (by simp)
  have t4 := startsWith_target "add-hosts=" t (by simp)
  have d1 := startsWith_dest "target=" (tarballPath outputsDir t) (by simp)
  have d2 := ne_output_of_startsWith (startsWith_dest "--output" (tarballPath outputsDir t) (by simp))
  have d3 := startsWith_self_append "type=docker,dest=" (tarballPath outputsDir t)
  have d4 := startsWith_dest "add-hosts=" (tarballPath outputsDir t) (by simp)
  have o1 : startsWith "target=" "--opt" = false := by decide
  have o3 : startsWith "type=docker,dest=" "--opt" = false := by decide
  have o4 : startsWith "add-hosts=" "--opt" = false := by decide
  have u1 : startsWith "target=" "--output" = false := by decide
  have u3 : startsWith "type=docker,dest=" "--output" = false := by decide
  have u4 : startsWith "add-hosts=" "--output" = false := by decide
  unfold targetSelections outputFlags outputValues addHostsValues at *
  unfold outputOption
  by_cases hs : sys.stat w (outputDir outputsDir t) = true
  · simp [hs, List.filter_append, List.filter_cons, h1, h2, h3, h4, t1, t2, t3, t4, d1, d2, d3,
      d4, o1, o3, o4, u1, u3, u4]
  · simp [hs, List.filter_append, List.filter_cons, h1, h2, h3, h4, t1, t2, t3, t4, o1, o3, o4]

/-- The per-plan options of the primary plan over plain base arguments. -/
theorem primaryPlan_options {W R : Type} (sys : Sys W R) (w : W) (img : OCIImage)
    (outputsDir : String) (base : List String) (hb : ∀ a ∈ base, Plain a) :
    targetSelections (base ++ outputOption sys w outputsDir "image"
        ++ (if img.Target = "" then [] else ["--opt", "target=" ++ img.Target])
        ++ (if img.AddHosts = "" then [] else ["--opt", "add-hosts=" ++ img.AddHosts]))
        = (if img.Target = "" then [] else ["target=" ++ img.Target]) ∧
      outputFlags (base ++ outputOption sys w outputsDir "image"
        ++ (if img.Target = "" then [] else ["--opt", "target=" ++ img.Target])
        ++ (if img.AddHosts = "" then [] else ["--opt", "add-hosts=" ++ img.AddHosts]))
        = (if sys.stat w (outputDir outputsDir "image") then ["--output"] else []) ∧
      outputValues (base ++ outputOption sys w outputsDir "image"
        ++ (if img.Target = "" then [] else ["--opt", "target=" ++ img.Target])
        ++ (if img.AddHosts = "" then [] else ["--opt", "add-hosts=" ++ img.AddHosts]))
        = (if sys.stat w (outputDir outputsDir "image") then
            ["type=docker,dest=" ++ tarballPath outputsDir "image"] else []) ∧
      addHostsValues (base ++ outputOption sys w outputsDir "image"
        ++ (if img.Target = "" then [] else ["--opt", "target=" ++ img.Target])
        ++ (if img.AddHosts = "" then [] else ["--opt", "add-hosts=" ++ img.AddHosts]))
        = (if img.AddHosts = "" then [] else ["add-hosts=" ++ img.AddHosts]) := by
  have h1 := targetSelections_plain base hb
  have h2 := outputFlags_plain base hb
  have h3 := outputValues_plain base hb
  have h4 := addHostsValues_plain base hb
  have t1 := startsWith_self_append "target=" img.Target
  have t2 := ne_output_of_startsWith (startsWith_target "--output" img.Target (by simp))
  have t3 := startsWith_target "type=docker,dest=" img.Target (by simp)
  have t4 := startsWith_target "add-hosts=" img.Target (by simp)
  have a1 := startsWith_addHosts "target=" img.AddHosts (by simp)
  have a2 := ne_output_of_startsWith (startsWith_addHosts "--output" img.AddHosts (by simp))
  have a3 := startsWith_addHosts "type=docker,dest=" img.AddHosts (by simp)
  have a4 := startsWith_self_append "add-hosts=" img.AddHosts
  have d1 := startsWith_dest "target=" (tarballPath outputsDir "image") (by simp)
  have d2 := ne_output_of_startsWith
    (startsWith_dest "--output" (tarballPath outputsDir "image") (by simp))
  have d3 := startsWith_self_append "type=docker,dest=" (tarballPath outputsDir "image")
  have d4 := startsWith_dest "add-hosts=" (tarballPath outputsDir "image") (by simp)
  have o1 : startsWith "target=" "--opt" = false := by decide
  have o3 : startsWith "type=docker,dest=" "--opt" = false := by decide
  have o4 : startsWith "add-hosts=" "--opt" = false := by decide
  have u1 : startsWith "target=" "--output" = false := by decide
  have u3 : startsWith "type=docker,dest=" "--output" = false := by decide
  have u4 : startsWith "add-hosts=" "--output" = false := by decide
  unfold targetSelections outputFlags outputValues addHostsValues at *
  unfold outputOption
  by_cases hs : sys.stat w (outputDir outputsDir "image") = true <;>
  by_cases ht : img.Target = "" <;> by_cases ha : img.AddHosts = "" <;>
  simp [hs, ht, ha, List.filter_append, List.filter_cons, h1, h2, h3, h4, t1, t2, t3, t4, d1, d2,
    d3, d4, o1, o3, o4, u1, u3, u4, a1, a2, a3, a4]

theorem getElem?_map_append {α β : Type} (f : α → β) (l : List α) (last : β) (i : Nat)
    (a : α) (h : l[i]? = some a) : (l.map f ++ [last])[i]? = some (f a) := by
  have hlt : i < l.length := by
    rcases Nat.lt_or_ge i l.length with h1 | h1
    · exact h1
    · rw [List.getElem?_eq_none h1] at h; cases h
  rw [List.getElem?_append_left (by simpa using hlt), List.getElem?_map, h]
  rfl

theorem getElem?_length_map_append {α β : Type} (f : α → β) (l : List α) (last : β) :
    (l.map f ++ [last])[l.length]? = some last := by
  rw [List.getElem?_append_right (by simp)]
  simp

/-- A successful compilation, spelled out: plain base arguments, one plan per
additional target in request order, then the primary plan. -/
theorem compile_ok_plans {W R : Type} (sys : Sys W R) (w : W) (img : OCIImage)
    (outputsDir : String) (plans : Plans) (h : (compile sys w img outputsDir).1 = .ok plans) :
    ∃ base, (∀ a ∈ base, Plain a) ∧
      plans.builds = img.AdditionalTargets.map
          (fun t => base ++ ["--opt", "target=" ++ t] ++ outputOption sys w outputsDir t)
          ++ [base ++ outputOption sys w outputsDir "image"
            ++ (if img.Target = "" then [] else ["--opt", "target=" ++ img.Target])
            ++ (if img.AddHosts = "" then [] else ["--opt", "add-hosts=" ++ img.AddHosts])] ∧
      plans.targets = img.AdditionalTargets ++ [""] ∧
      plans.imagePaths = img.AdditionalTargets.filterMap (outputPath? sys w outputsDir)
          ++ (outputPath? sys w outputsDir "image").toList := by
  obtain ⟨pre, hpre, rfl⟩ := (compile_ok_iff sys w img outputsDir plans).1 h
  refine ⟨baseArgs sys w (defaulted img) outputsDir pre,
    plain_of_mem_baseArgs sys w _ outputsDir pre (plain_of_mem_preload sys w _ pre hpre), ?_⟩
  rw [plansFrom_eq]
  exact ⟨rfl, rfl, rfl⟩

theorem compile_ok_of_no_imageArgs {W R : Type} (sys : Sys W R) (w : W) (img : OCIImage)
    (outputsDir : String) (h : img.ImageArgs = []) :
    ∃ plans, (compile sys w img outputsDir).1 = .ok plans := by
  refine ⟨_, (compile_ok_iff sys w img outputsDir _).2 ⟨[], ?_, rfl⟩⟩
  rw [preload_nil sys w _ (by simpa [defaulted] using h)]

/-! ## The claims -/

/-- C1: `Build` compiles exactly one plan per additional target, in request
order, followed by the primary plan, whose target name is empty.  Plans are
compiled whenever the image-preload block does not end `Build`, which it cannot
do for a request without image-preload args; and whenever plans are compiled,
the plan list has `n + 1` entries, the target names are `t1 .. tn` followed by
the empty name, the plan at position `i` is the base arguments followed by
`--opt target=t_i` and the output option of `t_i`, and the last plan is the base
arguments followed by the options of the primary plan. -/
theorem build_compiles_plan_per_target {W R : Type} (sys : Sys W R) (w : W) (img : OCIImage)
    (outputsDir : String) :
    (img.ImageArgs = [] → ∃ plans, (compile sys w img outputsDir).1 = .ok plans) ∧
    (∀ preloaded, (preload sys w (defaulted img)).1 = .ok preloaded →
      ∃ plans, (compile sys w img outputsDir).1 = .ok plans) ∧
    ∀ plans, (compile sys w img outputsDir).1 = .ok plans →
      plans.builds.length = img.AdditionalTargets.length + 1 ∧
      plans.targets = img.AdditionalTargets ++ [""] ∧
      ∃ base, (∀ a ∈ base, Plain a) ∧
        (∀ (i : Nat) (t : String), img.AdditionalTargets[i]? = some t →
          plans.targets[i]? = some t ∧
          plans.builds[i]? = some
            (base ++ ["--opt", "target=" ++ t] ++ outputOption sys w outputsDir t)) ∧
        plans.targets.getLast? = some "" ∧
        plans.builds.getLast? = some
          (base ++ outputOption sys w outputsDir "image"
            ++ (if img.Target = "" then [] else ["--opt", "target=" ++ img.Target])
            ++ (if img.AddHosts = "" then [] else ["--opt", "add-hosts=" ++ img.AddHosts])) := by
  refine ⟨compile_ok_of_no_imageArgs sys w img outputsDir,
    fun pre hpre => ⟨_, (compile_ok_iff sys w img outputsDir _).2 ⟨pre, hpre, rfl⟩⟩, ?_⟩
  intro plans h
  obtain ⟨base, hb, hbuilds, htargets, -⟩ := compile_ok_plans sys w img outputsDir plans h
  refine ⟨by simp [hbuilds], htargets, base, hb, ?_, by simp [htargets], by simp [hbuilds]⟩
  intro i t hi
  have hlt : i < img.AdditionalTargets.length := by
    rcases Nat.lt_or_ge i img.AdditionalTargets.length with h | h
    · exact h
    · rw [List.getElem?_eq_none h] at hi; cases hi
  constructor
  · rw [htargets, List.getElem?_append_left hlt, hi]
  · rw [hbuilds, List.getElem?_append_left (by simpa using hlt), List.getElem?_map, hi]
    rfl

/-- C1, on a request with two additional targets. -/
theorem build_compiles_plan_per_target_witness :
    (compile sampleSys sampleWorld twoTargets "/out").1 = .ok twoTargetsPlans ∧
      twoTargetsPlans.builds.length = twoTargets.AdditionalTargets.length + 1 ∧
      twoTargetsPlans.targets = twoTargets.AdditionalTargets ++ [""] :=
  ⟨by decide,
    ((build_compiles_plan_per_target sampleSys sampleWorld twoTargets "/out").2.2
      twoTargetsPlans (by decide)).1,
    ((build_compiles_plan_per_target sampleSys sampleWorld twoTargets "/out").2.2
      twoTargetsPlans (by decide)).2.1⟩

/-- C2: no per-target option leaks across plans.  Whenever compilation
succeeds, the plan of the additional target at position `i`, named `t`, holds
exactly one target selection, `--opt target=t`; its only output option is
`--output type=docker,dest=<outputs>/t/image.tar`, present when the directory of
`t` exists and absent otherwise; and it holds no extra-hosts value, which is
appended to the primary plan after the copies were taken.  The primary plan, the
last one, holds a target selection only for a non-empty `Target`, then exactly
`--opt target=<Target>`, and its only output option is the one for
`<outputs>/image/image.tar`. -/
theorem no_option_leaks_across_plans {W R : Type} (sys : Sys W R) (w : W) (img : OCIImage)
    (outputsDir : String) (plans : Plans)
    (h : (compile sys w img outputsDir).1 = .ok plans) :
    (∀ (i : Nat) (t : String), img.AdditionalTargets[i]? = some t →
      ∃ args, plans.builds[i]? = some args ∧
        targetSelections args = ["target=" ++ t] ∧
        ["--opt", "target=" ++ t] <:+: args ∧
        outputFlags args = (if sys.stat w (outputDir outputsDir t) then ["--output"] else []) ∧
        outputValues args = (if sys.stat w (outputDir outputsDir t) then
          ["type=docker,dest=" ++ tarballPath outputsDir t] else []) ∧
        outputOption sys w outputsDir t <:+: args ∧
        addHostsValues args = []) ∧
    ∃ args, plans.builds[img.AdditionalTargets.length]? = some args ∧
      plans.builds.getLast? = some args ∧
      targetSelections args = (if img.Target = "" then [] else ["target=" ++ img.Target]) ∧
      (img.Target ≠ "" → ["--opt", "target=" ++ img.Target] <:+: args) ∧
      outputFlags args
        = (if sys.stat w (outputDir outputsDir "image") then ["--output"] else []) ∧
      outputValues args = (if sys.stat w (outputDir outputsDir "image") then
        ["type=docker,dest=" ++ tarballPath outputsDir "image"] else []) ∧
      outputOption sys w outputsDir "image" <:+: args := by
  obtain ⟨base, hb, hbuilds, -, -⟩ := compile_ok_plans sys w img outputsDir plans h
  constructor
  · intro i t hi
    have hlt : i < img.AdditionalTargets.length := by
      rcases Nat.lt_or_ge i img.AdditionalTargets.length with h | h
      · exact h
      · rw [List.getElem?_eq_none h] at hi; cases hi
    refine ⟨base ++ ["--opt", "target=" ++ t] ++ outputOption sys w outputsDir t, ?_, ?_⟩
    · rw [hbuilds, List.getElem?_append_left (by simpa using hlt), List.getElem?_map, hi]
      rfl
    · obtain ⟨h1, h2, h3, h4⟩ := targetPlan_options sys w outputsDir base hb t
      refine ⟨h1, ?_, h2, h3, ?_, h4⟩
      · exact ⟨base, outputOption sys w outputsDir t, rfl⟩
      · exact (List.suffix_append _ _).isInfix
  · refine ⟨_, ?_, ?_, primaryPlan_options sys w img outputsDir base hb |>.1, ?_,
      primaryPlan_options sys w img outputsDir base hb |>.2.1,
      primaryPlan_options sys w img outputsDir base hb |>.2.2.1, ?_⟩
    · rw [hbuilds, List.getElem?_append_right (by simp)]
      simp
    · simp [hbuilds]
    · intro ht
      simp only [ht, if_false]
      exact ⟨base ++ outputOption sys w outputsDir "image",
        (if img.AddHosts = "" then [] else ["--opt", "add-hosts=" ++ img.AddHosts]), rfl⟩
    · refine ⟨base, (if img.Target = "" then [] else ["--opt", "target=" ++ img.Target]) ++
        (if img.AddHosts = "" then [] else ["--opt", "add-hosts=" ++ img.AddHosts]), ?_⟩
      simp [List.append_assoc]

/-- C2, on a request with an additional target, an explicit target and extra
host mappings: the plan of `a` selects `a` only and carries no extra-hosts
value. -/
theorem no_option_leaks_across_plans_witness :
    (compile sampleSys sampleWorld hostsRequest "/out").1 = .ok hostsPlans ∧
      ∃ args, hostsPlans.builds[0]? = some args ∧
        targetSelections args = ["target=" ++ "a"] ∧ addHostsValues args = [] :=
  ⟨by decide,
    match (no_option_leaks_across_plans sampleSys sampleWorld hostsRequest "/out" hostsPlans
      (by decide)).1 0 "a" (by decide) with
    | ⟨args, h1, h2, _, _, _, _, h7⟩ => ⟨args, h1, h2, h7⟩⟩

/-- C3 fails on the code: for a request with one additional target and extra
host mappings, the plan of the additional target carries no `add-hosts` value;
only the primary plan does.  The option is appended to `buildctlArgs` after the
loop over the additional targets has taken its copies. -/
theorem add_hosts_missing_from_additional_target :
    (compile sampleSys sampleWorld hostsRequest "/out").1 = .ok hostsPlans ∧
      hostsPlans.builds.map addHostsValues = [[], ["add-hosts=test-host=1.2.3.4"]] ∧
      hostsPlans.builds.map (fun args => decide ("add-hosts=test-host=1.2.3.4" ∈ args))
        = [false, true] := by
  decide

theorem baseArgs_defaulted_eq_specBase {W R : Type} (sys : Sys W R) (w : W) (img : OCIImage)
    (outputsDir : String) :
    baseArgs sys w (defaulted img) outputsDir [] =
      specBase img outputsDir (sys.stat w (filepath.Join [outputsDir, "cache"]))
        (sys.rangeMap img.BuildkitSecrets) := by
  rw [baseArgs_eq]
  simp [specBase, defaulted]

/-- C4: for a request without image-preload args, compilation succeeds and
yields one plan per additional target and the primary plan, and every one of
them begins with the same base arguments: the fixed head with the defaulted
context and the directory and file name of the defaulted dockerfile path, one
`--opt label:` per label in request order, one `--opt build-arg:` per build-arg
in request order, the `--export-cache` option exactly when the cache directory
exists, then one `--secret` per secret entry, the entries taken in the order the
map is visited.  The plan of the additional target at position `i` is these
base arguments followed by its target selection and its output option; the last
plan, the primary one, is these base arguments followed by its own options. -/
theorem plans_begin_with_base {W R : Type} (sys : Sys W R) (w : W) (img : OCIImage)
    (outputsDir : String) (h : img.ImageArgs = []) :
    ∃ plans, (compile sys w img outputsDir).1 = .ok plans ∧
      ∃ secrets, secrets.Perm img.BuildkitSecrets ∧
        plans.builds.length = img.AdditionalTargets.length + 1 ∧
        (∀ (i : Nat) (t : String), img.AdditionalTargets[i]? = some t →
          plans.builds[i]? = some
            (specBase img outputsDir (sys.stat w (filepath.Join [outputsDir, "cache"])) secrets
              ++ ["--opt", "target=" ++ t] ++ outputOption sys w outputsDir t)) ∧
        plans.builds[img.AdditionalTargets.length]? = some
          (specBase img outputsDir (sys.stat w (filepath.Join [outputsDir, "cache"])) secrets
            ++ outputOption sys w outputsDir "image"
            ++ (if img.Target = "" then [] else ["--opt", "target=" ++ img.Target])
            ++ (if img.AddHosts = "" then [] else ["--opt", "add-hosts=" ++ img.AddHosts])) ∧
        ∀ args ∈ plans.builds,
          specBase img outputsDir (sys.stat w (filepath.Join [outputsDir, "cache"])) secrets
            <+: args := by
  have hpre : preload sys w (defaulted img) = (.ok [], []) :=
    preload_nil sys w _ (by simpa [defaulted] using h)
  refine ⟨_, (compile_ok_iff sys w img outputsDir _).2 ⟨[], by rw [hpre], rfl⟩,
    sys.rangeMap img.BuildkitSecrets, sys.rangeMap_perm _, ?_⟩
  rw [plansFrom_eq, baseArgs_defaulted_eq_specBase]
  refine ⟨by simp [defaulted], ?_, ?_, ?_⟩
  · intro i t hi
    exact getElem?_map_append _ _ _ i t hi
  · exact getElem?_length_map_append _ _ _
  · intro args hargs
    simp only [List.mem_append, List.mem_map, List.mem_singleton] at hargs
    rcases hargs with ⟨t, -, rfl⟩ | rfl
    · rw [List.append_assoc]
      exact List.prefix_append _ _
    · rw [List.append_assoc, List.append_assoc]
      exact List.prefix_append _ _

/-- C4, on a request with a label, a build-arg and a secret, with a cache
directory: the two plans compiled, that of target `a` and the primary one, both
begin with the base arguments. -/
theorem plans_begin_with_base_witness :
    labelled.ImageArgs = [] ∧
      (compile sampleSys cachedWorld labelled "/out").1 = .ok labelledPlans ∧
      ∃ secrets, secrets.Perm labelled.BuildkitSecrets ∧
        labelledPlans.builds.length = labelled.AdditionalTargets.length + 1 ∧
        ∀ args ∈ labelledPlans.builds,
          specBase labelled "/out" (sampleSys.stat cachedWorld (filepath.Join ["/out", "cache"]))
            secrets <+: args :=
  ⟨by decide, by decide,
    match plans_begin_with_base sampleSys cachedWorld labelled "/out" (by decide) with
    | ⟨plans, hp, secrets, hperm, hlen, _, _, hall⟩ =>
      have e : plans = labelledPlans :=
        Outcome.ok.inj (hp.symm.trans (by decide))
      e ▸ ⟨secrets, hperm, hlen, hall⟩⟩

/-- The base arguments the specification lists for `labelled`, evaluated. -/
theorem specBase_labelled : specBase labelled "/out" true labelled.BuildkitSecrets =
    ["build", "--progress", "plain", "--frontend", "dockerfile.v0",
      "--local", "context=ctx", "--local", "dockerfile=ctx/docker",
      "--opt", "filename=hello.Dockerfile", "--opt", "label:some_label=some_value",
      "--opt", "build-arg:some_arg=some_value",
      "--export-cache", "type=local,mode=min,dest=/out/cache",
      "--secret", "id=secret,src=ctx/secret"] := by decide

/-! ## Lemmas: the loop over the plans -/

theorem schedule_length {W R : Type} (sys : Sys W R) (addr cacheDir : String) (w : W)
    (builds : List (List String)) :
    (schedule sys addr cacheDir w builds).length = builds.length := by
  induction builds generalizing w with
  | nil => rfl
  | cons a rest ih => simp [schedule, ih]

/-- The call at position `i` of the schedule is the call for plan `i`: its
arguments are the plan's, with the cache-import option decided in the world the
call runs in, and its error is what the daemon returns there. -/
theorem schedule_getElem? {W R : Type} (sys : Sys W R) (addr cacheDir : String) (w : W)
    (builds : List (List String)) (i : Nat) (x : Invocation W)
    (h : (schedule sys addr cacheDir w builds)[i]? = some x) :
    ∃ args, builds[i]? = some args ∧ x.args = withImportCache sys x.before cacheDir args ∧
      x.err = (buildctl sys x.before addr x.args).1 := by
  induction builds generalizing w i with
  | nil => simp [schedule] at h
  | cons a rest ih =>
    cases i with
    | zero =>
      simp only [schedule, List.getElem?_cons_zero, Option.some.injEq] at h
      subst h
      exact ⟨a, by simp, rfl, rfl⟩
    | succ i =>
      simp only [schedule, List.getElem?_cons_succ] at h
      simpa using ih _ i h

/-- The first call runs in the initial world, and each later call in the world
the previous call left. -/
theorem schedule_before {W R : Type} (sys : Sys W R) (addr cacheDir : String) (w : W)
    (builds : List (List String)) :
    (∀ x, (schedule sys addr cacheDir w builds)[0]? = some x → x.before = w) ∧
    ∀ (i : Nat) (x y : Invocation W),
      (schedule sys addr cacheDir w builds)[i]? = some x →
      (schedule sys addr cacheDir w builds)[i + 1]? = some y →
      y.before = (buildctl sys x.before addr x.args).2 := by
  induction builds generalizing w with
  | nil => simp [schedule]
  | cons a rest ih =>
    constructor
    · intro x hx
      simp only [schedule, List.getElem?_cons_zero, Option.some.injEq] at hx
      subst hx
      rfl
    · intro i x y hx hy
      cases i with
      | zero =>
        simp only [schedule, List.getElem?_cons_zero, Option.some.injEq] at hx
        simp only [schedule, Nat.zero_add, List.getElem?_cons_succ] at hy
        subst hx
        exact (ih _).1 y hy
      | succ i =>
        simp only [schedule, List.getElem?_cons_succ] at hx hy
        exact (ih _).2 i x y hx hy

/-- The loop stops at the first failing call: it makes the calls of the schedule
up to and including that one, and returns the wrapped error. -/
theorem runBuilds_of_first_failure {W R : Type} (sys : Sys W R) (addr cacheDir : String)
    (w : W) (builds : List (List String)) (k : Nat) (x : Invocation W) (e : String)
    (hk : (schedule sys addr cacheDir w builds)[k]? = some x) (hx : x.err = some e)
    (hbefore : ∀ (j : Nat) (y : Invocation W), j < k →
      (schedule sys addr cacheDir w builds)[j]? = some y → y.err = none) :
    (runBuilds sys addr cacheDir w builds).trace
        = (schedule sys addr cacheDir w builds).take (k + 1) ∧
      (runBuilds sys addr cacheDir w builds).err = some (wrap "build" e) := by
  induction builds generalizing w k with
  | nil => simp [schedule] at hk
  | cons a rest ih =>
    cases k with
    | zero =>
      simp only [schedule, List.getElem?_cons_zero, Option.some.injEq] at hk
      subst hk
      simp only at hx
      simp only [runBuilds, schedule]
      split
      · rename_i e1 w1 heq
        rw [heq] at hx
        simp only [Option.some.injEq] at hx
        subst hx
        simp [heq]
      · rename_i w1 heq
        rw [heq] at hx
        cases hx
    | succ k =>
      have h0 := hbefore 0 ⟨w, withImportCache sys w cacheDir a,
        (buildctl sys w addr (withImportCache sys w cacheDir a)).1⟩ (Nat.succ_pos k)
        (by simp [schedule])
      simp only at h0
      simp only [schedule, List.getElem?_cons_succ] at hk
      simp only [runBuilds, schedule]
      split
      · rename_i e1 w1 heq
        rw [heq] at h0
        cases h0
      · rename_i w1 heq
        have hw : (buildctl sys w addr (withImportCache sys w cacheDir a)).2 = w1 := by rw [heq]
        rw [hw] at hk
        have := ih w1 k hk (fun j y hj hy =>
          hbefore (j + 1) y (Nat.succ_lt_succ hj) (by simpa [schedule, hw] using hy))
        simp [this.1, this.2, heq]

/-- When no call fails the loop makes every call of the schedule and returns no
error. -/
theorem runBuilds_of_no_failure {W R : Type} (sys : Sys W R) (addr cacheDir : String)
    (w : W) (builds : List (List String))
    (h : ∀ y ∈ schedule sys addr cacheDir w builds, y.err = none) :
    (runBuilds sys addr cacheDir w builds).trace = schedule sys addr cacheDir w builds ∧
      (runBuilds sys addr cacheDir w builds).err = none := by
  induction builds generalizing w with
  | nil => simp [runBuilds, schedule]
  | cons a rest ih =>
    have h0 := h ⟨w, withImportCache sys w cacheDir a,
      (buildctl sys w addr (withImportCache sys w cacheDir a)).1⟩ (by simp [schedule])
    simp only at h0
    simp only [runBuilds, schedule]
    split
    · rename_i e1 w1 heq
      rw [heq] at h0
      cases h0
    · rename_i w1 heq
      have hw : (buildctl sys w addr (withImportCache sys w cacheDir a)).2 = w1 := by rw [heq]
      have := ih w1 (fun y hy => h y (by simp [schedule, hw, hy]))
      simp [this.1, this.2, heq]

/-- The calls made are always an initial part of the schedule. -/
theorem runBuilds_trace_initial {W R : Type} (sys : Sys W R) (addr cacheDir : String)
    (w : W) (builds : List (List String)) :
    (runBuilds sys addr cacheDir w builds).trace <+: schedule sys addr cacheDir w builds := by
  induction builds generalizing w with
  | nil => simp [runBuilds, schedule]
  | cons a rest ih =>
    simp only [runBuilds, schedule]
    split
    · rename_i e1 w1 heq
      simp [heq]
    · rename_i w1 heq
      have hw : (buildctl sys w addr (withImportCache sys w cacheDir a)).2 = w1 := by rw [heq]
      simp only [heq, hw]
      exact (List.prefix_cons_inj _).2 (ih w1)

theorem getElem?_of_initial {α : Type} {l₁ l₂ : List α} (h : l₁ <+: l₂) {i : Nat} {x : α}
    (hx : l₁[i]? = some x) : l₂[i]? = some x := by
  obtain ⟨t, rfl⟩ := h
  have hlt : i < l₁.length := by
    rcases Nat.lt_or_ge i l₁.length with h | h
    · exact h
    · rw [List.getElem?_eq_none h] at hx; cases hx
  rw [List.getElem?_append_left hlt, hx]

/-- What `Build` does once the plans are compiled. -/
theorem Build_of_compile_ok {W R : Type} (sys : Sys W R) (w : W) (img : OCIImage)
    (buildkitd : Buildkitd) (outputsDir : String) (plans : Plans)
    (h : (compile sys w img outputsDir).1 = .ok plans) :
    Build sys w img buildkitd outputsDir =
      match (runBuilds sys buildkitd.Addr (filepath.Join [outputsDir, "cache"]) w
          plans.builds).err with
      | some e =>
        ⟨.error e,
          (runBuilds sys buildkitd.Addr (filepath.Join [outputsDir, "cache"]) w
            plans.builds).world,
          (compile sys w img outputsDir).2 ++
            (runBuilds sys buildkitd.Addr (filepath.Join [outputsDir, "cache"]) w
              plans.builds).trace.map (Invocation.toEvent buildkitd.Addr)⟩
      | none =>
        ⟨match (finalizeAll sys (defaulted img)
            (runBuilds sys buildkitd.Addr (filepath.Join [outputsDir, "cache"]) w
              plans.builds).world plans.imagePaths).err with
          | some e => .error e
          | none => .ok (),
          (finalizeAll sys (defaulted img)
            (runBuilds sys buildkitd.Addr (filepath.Join [outputsDir, "cache"]) w
              plans.builds).world plans.imagePaths).world,
          (compile sys w img outputsDir).2 ++
            (runBuilds sys buildkitd.Addr (filepath.Join [outputsDir, "cache"]) w
              plans.builds).trace.map (Invocation.toEvent buildkitd.Addr) ++
            (finalizeAll sys (defaulted img)
              (runBuilds sys buildkitd.Addr (filepath.Join [outputsDir, "cache"]) w
                plans.builds).world plans.imagePaths).paths.map Event.finalize⟩ := by
  have hcomp : compile sys w img outputsDir
      = compileSanitized sys w (defaulted img) outputsDir := by
    unfold compile
    rw [sanitize_eq]
  rw [hcomp] at h ⊢
  cases hc : compileSanitized sys w (defaulted img) outputsDir with
  | mk o evs =>
    rw [hc] at h
    simp only at h
    subst h
    simp only [Build, sanitize_eq, hc]
    cases he : (runBuilds sys buildkitd.Addr (filepath.Join [outputsDir, "cache"]) w
        plans.builds).err with
    | some e => rfl
    | none =>
      cases hf : (finalizeAll sys (defaulted img)
          (runBuilds sys buildkitd.Addr (filepath.Join [outputsDir, "cache"]) w
            plans.builds).world plans.imagePaths).err with
      | some e => simp only [hf]
      | none => simp only [hf]

/-- C6: a failing daemon call aborts the sequence at once.  For every plan
list, world and daemon: the schedule has one call per plan, in plan order, each
with its plan's arguments.  If the call for plan `k` is the first that fails,
the loop makes exactly the calls for plans `0 .. k`, once each and in that
order, none after `k` and none twice, and returns the error wrapped as
`build: ...`; if no call fails it makes every call of the schedule and returns
no error.  `Build` returns the error of the loop over its own plans, having
recorded exactly the calls made. -/
theorem failing_invocation_aborts {W R : Type} (sys : Sys W R) (addr cacheDir : String) (w : W)
    (builds : List (List String)) :
    (schedule sys addr cacheDir w builds).length = builds.length ∧
    (∀ (i : Nat) (x : Invocation W), (schedule sys addr cacheDir w builds)[i]? = some x →
      ∃ args, builds[i]? = some args ∧ x.args = withImportCache sys x.before cacheDir args ∧
        x.err = (buildctl sys x.before addr x.args).1) ∧
    (∀ (k : Nat) (x : Invocation W) (e : String),
      (schedule sys addr cacheDir w builds)[k]? = some x → x.err = some e →
      (∀ (j : Nat) (y : Invocation W), j < k →
        (schedule sys addr cacheDir w builds)[j]? = some y → y.err = none) →
      (runBuilds sys addr cacheDir w builds).trace
          = (schedule sys addr cacheDir w builds).take (k + 1) ∧
        (runBuilds sys addr cacheDir w builds).trace.length = k + 1 ∧
        (runBuilds sys addr cacheDir w builds).err = some (wrap "build" e)) ∧
    ((∀ y ∈ schedule sys addr cacheDir w builds, y.err = none) →
      (runBuilds sys addr cacheDir w builds).trace = schedule sys addr cacheDir w builds ∧
        (runBuilds sys addr cacheDir w builds).trace.length = builds.length ∧
        (runBuilds sys addr cacheDir w builds).err = none) ∧
    ∀ (img : OCIImage) (buildkitd : Buildkitd) (outputsDir : String) (plans : Plans) (e : String),
      (compile sys w img outputsDir).1 = .ok plans →
      (runBuilds sys buildkitd.Addr (filepath.Join [outputsDir, "cache"]) w plans.builds).err
        = some e →
      (Build sys w img buildkitd outputsDir).result = .error e ∧
        (Build sys w img buildkitd outputsDir).events = (compile sys w img outputsDir).2 ++
          (runBuilds sys buildkitd.Addr (filepath.Join [outputsDir, "cache"]) w
            plans.builds).trace.map (Invocation.toEvent buildkitd.Addr) := by
  refine ⟨schedule_length sys addr cacheDir w builds,
    schedule_getElem? sys addr cacheDir w builds, ?_, ?_, ?_⟩
  · intro k x e hk hx hbefore
    obtain ⟨h1, h2⟩ := runBuilds_of_first_failure sys addr cacheDir w builds k x e hk hx hbefore
    refine ⟨h1, ?_, h2⟩
    have hlt : k < (schedule sys addr cacheDir w builds).length := by
      rcases Nat.lt_or_ge k (schedule sys addr cacheDir w builds).length with h | h
      · exact h
      · rw [List.getElem?_eq_none h] at hk; cases hk
    rw [h1, List.length_take]
    omega
  · intro hall
    obtain ⟨h1, h2⟩ := runBuilds_of_no_failure sys addr cacheDir w builds hall
    exact ⟨h1, by rw [h1, schedule_length], h2⟩
  · intro img buildkitd outputsDir plans e hc he
    rw [Build_of_compile_ok sys w img buildkitd outputsDir plans hc, he]
    exact ⟨rfl, rfl⟩

/-- C6, on a request whose second plan fails: the calls for the first two
plans are made, the third and fourth plans are never run, and `Build` returns
the error. -/
theorem failing_invocation_aborts_witness :
    (schedule sampleSys sampleDaemon.Addr "/out/cache" sampleWorld brokenSecondPlans.builds)[1]?
        = some brokenSecondFailedCall ∧
      (runBuilds sampleSys sampleDaemon.Addr "/out/cache" sampleWorld
          brokenSecondPlans.builds).trace.length = 1 + 1 ∧
      (runBuilds sampleSys sampleDaemon.Addr "/out/cache" sampleWorld
          brokenSecondPlans.builds).err = some (wrap "build" "exit status 1") ∧
      (Build sampleSys sampleWorld brokenSecond sampleDaemon "/out").result
        = .error "build: exit status 1" :=
  ⟨by decide,
    ((failing_invocation_aborts sampleSys sampleDaemon.Addr "/out/cache" sampleWorld
      brokenSecondPlans.builds).2.2.1 1 brokenSecondFailedCall "exit status 1" (by decide) rfl
      (fun j y hj hy => by
        obtain rfl : j = 0 := by omega
        have h0 : (schedule sampleSys sampleDaemon.Addr "/out/cache" sampleWorld
            brokenSecondPlans.builds)[0]? = some brokenSecondFirstCall := by decide
        rw [h0] at hy
        cases hy
        rfl)).2.1,
    ((failing_invocation_aborts sampleSys sampleDaemon.Addr "/out/cache" sampleWorld
      brokenSecondPlans.builds).2.2.1 1 brokenSecondFailedCall "exit status 1" (by decide) rfl
      (fun j y hj hy => by
        obtain rfl : j = 0 := by omega
        have h0 : (schedule sampleSys sampleDaemon.Addr "/out/cache" sampleWorld
            brokenSecondPlans.builds)[0]? = some brokenSecondFirstCall := by decide
        rw [h0] at hy
        cases hy
        rfl)).2.2,
    ((failing_invocation_aborts sampleSys sampleDaemon.Addr "/out/cache" sampleWorld
      brokenSecondPlans.builds).2.2.2.2 brokenSecond sampleDaemon "/out"
      brokenSecondPlans "build: exit status 1" (by decide) (by decide)).1⟩

/-- Once the cache index exists it stays, when the daemon never removes it: it
exists before every later call the loop makes. -/
theorem index_persists {W R : Type} (sys : Sys W R) (addr cacheDir : String)
    (hkeep : ∀ (w : W) (p : String) (a : List String),
      sys.stat w (filepath.Join [cacheDir, "index.json"]) = true →
      sys.stat (sys.run w p a).2 (filepath.Join [cacheDir, "index.json"]) = true)
    (w : W) (builds : List (List String)) (i d : Nat) (x y : Invocation W)
    (hx : (schedule sys addr cacheDir w builds)[i]? = some x)
    (hy : (schedule sys addr cacheDir w builds)[i + d]? = some y)
    (hstat : sys.stat x.before (filepath.Join [cacheDir, "index.json"]) = true) :
    sys.stat y.before (filepath.Join [cacheDir, "index.json"]) = true := by
  induction d generalizing y with
  | zero =>
    rw [Nat.add_zero, hx] at hy
    cases hy
    exact hstat
  | succ d ih =>
    have hlt : i + d < (schedule sys addr cacheDir w builds).length := by
      rcases Nat.lt_or_ge (i + d + 1) (schedule sys addr cacheDir w builds).length with h | h
      · omega
      · rw [show i + (d + 1) = i + d + 1 from rfl, List.getElem?_eq_none h] at hy; cases hy
    have hz := List.getElem?_eq_getElem hlt
    have hprev := ih _ hz
    have hnext := (schedule_before sys addr cacheDir w builds).2 (i + d) _ y hz hy
    rw [hnext]
    exact hkeep _ _ _ hprev

/-- C9: cache import is decided per plan at execution time.  For every plan
list, world and daemon, the arguments of the call made for plan `i` are the
plan's arguments followed by `--import-cache type=local,src=<cache>` when
`<cache>/index.json` exists in the world the call runs in, and the plan's
arguments unchanged otherwise; the first call runs in the initial world and each
later call in the world its predecessor left.  So when the daemon never removes
the index, every call made after one that found it, or that left it behind,
carries the option.  `Build` runs the loop with `<outputs>/cache` on its own
plans and records the calls made. -/
theorem cache_import_decided_per_plan {W R : Type} (sys : Sys W R) (addr cacheDir : String)
    (w : W) (builds : List (List String)) :
    (∀ (i : Nat) (x : Invocation W),
      (runBuilds sys addr cacheDir w builds).trace[i]? = some x →
      ∃ args, builds[i]? = some args ∧
        x.args = (if sys.stat x.before (filepath.Join [cacheDir, "index.json"]) then
          args ++ ["--import-cache", "type=local,src=" ++ cacheDir] else args)) ∧
    (∀ x, (runBuilds sys addr cacheDir w builds).trace[0]? = some x → x.before = w) ∧
    (∀ (i : Nat) (x y : Invocation W),
      (runBuilds sys addr cacheDir w builds).trace[i]? = some x →
      (runBuilds sys addr cacheDir w builds).trace[i + 1]? = some y →
      y.before = (buildctl sys x.before addr x.args).2) ∧
    ((∀ (w1 : W) (p : String) (a : List String),
        sys.stat w1 (filepath.Join [cacheDir, "index.json"]) = true →
        sys.stat (sys.run w1 p a).2 (filepath.Join [cacheDir, "index.json"]) = true) →
      ∀ (i j : Nat) (x y : Invocation W), i ≤ j →
        (runBuilds sys addr cacheDir w builds).trace[i]? = some x →
        (runBuilds sys addr cacheDir w builds).trace[j]? = some y →
        sys.stat x.before (filepath.Join [cacheDir, "index.json"]) = true →
        ∃ args, builds[j]? = some args ∧
          y.args = args ++ ["--import-cache", "type=local,src=" ++ cacheDir]) ∧
    ∀ (img : OCIImage) (buildkitd : Buildkitd) (outputsDir : String) (plans : Plans),
      (compile sys w img outputsDir).1 = .ok plans →
      ∃ post, (Build sys w img buildkitd outputsDir).events =
        (compile sys w img outputsDir).2 ++
          (runBuilds sys buildkitd.Addr (filepath.Join [outputsDir, "cache"]) w
            plans.builds).trace.map (Invocation.toEvent buildkitd.Addr) ++ post := by
  have hpre := runBuilds_trace_initial sys addr cacheDir w builds
  refine ⟨?_, ?_, ?_, ?_, ?_⟩
  · intro i x hx
    obtain ⟨args, h1, h2, -⟩ := schedule_getElem? sys addr cacheDir w builds i x
      (getElem?_of_initial hpre hx)
    exact ⟨args, h1, h2⟩
  · intro x hx
    exact (schedule_before sys addr cacheDir w builds).1 x (getElem?_of_initial hpre hx)
  · intro i x y hx hy
    exact (schedule_before sys addr cacheDir w builds).2 i x y (getElem?_of_initial hpre hx)
      (getElem?_of_initial hpre hy)
  · intro hkeep i j x y hij hx hy hstat
    obtain ⟨d, rfl⟩ := Nat.exists_eq_add_of_le hij
    have hyb := index_persists sys addr cacheDir hkeep w builds i d x y
      (getElem?_of_initial hpre hx) (getElem?_of_initial hpre hy) hstat
    obtain ⟨args, h1, h2, -⟩ := schedule_getElem? sys addr cacheDir w builds (i + d) y
      (getElem?_of_initial hpre hy)
    refine ⟨args, h1, ?_⟩
    rw [h2, withImportCache, if_pos hyb]
  · intro img buildkitd outputsDir plans hc
    rw [Build_of_compile_ok sys w img buildkitd outputsDir plans hc]
    split
    · exact ⟨[], by simp⟩
    · exact ⟨_, rfl⟩

theorem sampleSys_keeps (q : String) (w : List String) (p : String) (a : List String)
    (h : sampleSys.stat w q = true) : sampleSys.stat (sampleSys.run w p a).2 q = true := by
  simp only [sampleSys] at h ⊢
  split
  · exact h
  · simp only [List.contains_eq_any_beq, List.any_append, Bool.or_eq_true] at h ⊢
    exact Or.inr h

/-- C9, on a request with two additional targets and a cache directory: the
first call leaves the cache index behind, so the call for the third plan, which
runs after the second, carries the cache-import option. -/
theorem cache_import_decided_per_plan_witness :
    (runBuilds sampleSys sampleDaemon.Addr "/out/cache" cachedWorld cachedBuilds).trace[1]?
        = some cachedSecondCall ∧
      (runBuilds sampleSys sampleDaemon.Addr "/out/cache" cachedWorld cachedBuilds).trace[2]?
        = some cachedThirdCall ∧
      sampleSys.stat cachedSecondCall.before (filepath.Join ["/out/cache", "index.json"])
        = true ∧
      ∃ args, cachedBuilds[2]? = some args ∧
        cachedThirdCall.args = args ++ ["--import-cache", "type=local,src=" ++ "/out/cache"] :=
  ⟨by decide, by decide, by decide,
    (cache_import_decided_per_plan sampleSys sampleDaemon.Addr "/out/cache" cachedWorld
      cachedBuilds).2.2.2.1 (sampleSys_keeps _) 1 2 cachedSecondCall cachedThirdCall
      (by decide) (by decide) (by decide) (by decide)⟩

/-! ## Lemmas: finalization -/

/-- The loop over the tarballs finalizes them in order and stops at the first
failure. -/
theorem finalizeAll_spec {W R : Type} (sys : Sys W R) (img : OCIImage) (w : W)
    (paths : List String) :
    (finalizeAll sys img w paths).paths <+: paths ∧
    ((finalizeAll sys img w paths).err = none → (finalizeAll sys img w paths).paths = paths) ∧
    ∀ e, (finalizeAll sys img w paths).err = some e →
      ∃ (k : Nat) (p : String) (w1 : W), paths[k]? = some p ∧
        (finalizeAll sys img w paths).paths = paths.take (k + 1) ∧
        (finalize sys w1 img p).1 = some e := by
  induction paths generalizing w with
  | nil => simp [finalizeAll]
  | cons p rest ih =>
    simp only [finalizeAll]
    split
    · rename_i e1 w1 heq
      refine ⟨by simp, by simp, ?_⟩
      intro e he
      simp only [Option.some.injEq] at he
      subst he
      exact ⟨0, p, w, by simp, by simp, by rw [heq]⟩
    · rename_i w1 heq
      obtain ⟨h1, h2, h3⟩ := ih w1
      refine ⟨(List.prefix_cons_inj _).2 h1, fun hn => by simp [h2 hn], ?_⟩
      intro e he
      obtain ⟨k, q, w2, hk, hp, hf⟩ := h3 e he
      exact ⟨k + 1, q, w2, by simpa using hk, by simp [hp], hf⟩

/-- Compiling records registry actions only. -/
theorem compile_events {W R : Type} (sys : Sys W R) (w : W) (img : OCIImage)
    (outputsDir : String) :
    ∀ ev ∈ (compile sys w img outputsDir).2,
      (∃ m, ev = Event.loadRegistry m) ∨ ev = Event.serveRegistry := by
  unfold compile
  rw [sanitize_eq]
  simp only [compileSanitized]
  have hp : ∀ ev ∈ (preload sys w (defaulted img)).2,
      (∃ m, ev = Event.loadRegistry m) ∨ ev = Event.serveRegistry := by
    unfold preload
    split
    · split
      · simp
      · simp
      · split
        · simp
        · split <;> simp
    · simp
  cases hpre : preload sys w (defaulted img) with
  | mk o evs =>
    rw [hpre] at hp
    cases o <;> exact hp

/-- C8 fails on the code as stated: for a request whose first plan has an
output directory and builds, and whose second plan fails to build, the tarball
of the first plan is among those to finalize, its call succeeded, and yet
`Build` returns the build error without finalizing it. -/
theorem built_target_not_finalized_after_later_failure :
    (compile sampleSys sampleWorld brokenSecond "/out").1 = .ok brokenSecondPlans ∧
      "/out/a/image.tar" ∈ brokenSecondPlans.imagePaths ∧
      (runBuilds sampleSys sampleDaemon.Addr (filepath.Join ["/out", "cache"]) sampleWorld
        brokenSecondPlans.builds).trace[0]? = some brokenSecondFirstCall ∧
      brokenSecondFirstCall.err = none ∧
      "type=docker,dest=/out/a/image.tar" ∈ brokenSecondFirstCall.args ∧
      (Build sampleSys sampleWorld brokenSecond sampleDaemon "/out").result
        = .error "build: exit status 1" ∧
      Event.finalize "/out/a/image.tar"
        ∉ (Build sampleSys sampleWorld brokenSecond sampleDaemon "/out").events := by
  decide

theorem finalizeSchedule_length {W R : Type} (sys : Sys W R) (img : OCIImage) (w : W)
    (paths : List String) : (finalizeSchedule sys img w paths).length = paths.length := by
  induction paths generalizing w with
  | nil => rfl
  | cons p rest ih => simp [finalizeSchedule, ih]

/-- The finalization at position `i` of the schedule is that of the tarball at
position `i`, and its error is what `finalize` returns in the world it runs
in. -/
theorem finalizeSchedule_getElem? {W R : Type} (sys : Sys W R) (img : OCIImage) (w : W)
    (paths : List String) (i : Nat) (x : Finalization W)
    (h : (finalizeSchedule sys img w paths)[i]? = some x) :
    paths[i]? = some x.imagePath ∧ x.err = (finalize sys x.before img x.imagePath).1 := by
  induction paths generalizing w i with
  | nil => simp [finalizeSchedule] at h
  | cons p rest ih =>
    cases i with
    | zero =>
      simp only [finalizeSchedule, List.getElem?_cons_zero, Option.some.injEq] at h
      subst h
      exact ⟨by simp, rfl⟩
    | succ i =>
      simp only [finalizeSchedule, List.getElem?_cons_succ] at h
      simpa using ih _ i h

/-- The first finalization runs in the initial world, and each later one in the
world the previous finalization left. -/
theorem finalizeSchedule_before {W R : Type} (sys : Sys W R) (img : OCIImage) (w : W)
    (paths : List String) :
    (∀ x, (finalizeSchedule sys img w paths)[0]? = some x → x.before = w) ∧
    ∀ (i : Nat) (x y : Finalization W),
      (finalizeSchedule sys img w paths)[i]? = some x →
      (finalizeSchedule sys img w paths)[i + 1]? = some y →
      y.before = (finalize sys x.before img x.imagePath).2 := by
  induction paths generalizing w with
  | nil => simp [finalizeSchedule]
  | cons p rest ih =>
    constructor
    · intro x hx
      simp only [finalizeSchedule, List.getElem?_cons_zero, Option.some.injEq] at hx
      subst hx
      rfl
    · intro i x y hx hy
      cases i with
      | zero =>
        simp only [finalizeSchedule, List.getElem?_cons_zero, Option.some.injEq] at hx
        simp only [finalizeSchedule, Nat.zero_add, List.getElem?_cons_succ] at hy
        subst hx
        exact (ih _).1 y hy
      | succ i =>
        simp only [finalizeSchedule, List.getElem?_cons_succ] at hx hy
        exact (ih _).2 i x y hx hy

/-- The loop over the tarballs stops at the first failing finalization: it has
started those of the tarballs up to and including that one, and returns its
error. -/
theorem finalizeAll_of_first_failure {W R : Type} (sys : Sys W R) (img : OCIImage) (w : W)
    (paths : List String) (k : Nat) (x : Finalization W) (e : String)
    (hk : (finalizeSchedule sys img w paths)[k]? = some x) (hx : x.err = some e)
    (hbefore : ∀ (j : Nat) (y : Finalization W), j < k →
      (finalizeSchedule sys img w paths)[j]? = some y → y.err = none) :
    (finalizeAll sys img w paths).paths = paths.take (k + 1) ∧
      (finalizeAll sys img w paths).err = some e := by
  induction paths generalizing w k with
  | nil => simp [finalizeSchedule] at hk
  | cons p rest ih =>
    cases hf : finalize sys w img p with
    | mk ef w1 =>
      cases k with
      | zero =>
        simp only [finalizeSchedule, List.getElem?_cons_zero, Option.some.injEq] at hk
        subst hk
        simp only [hf] at hx
        subst hx
        simp [finalizeAll, hf]
      | succ k =>
        have h0 := hbefore 0 ⟨w, p, (finalize sys w img p).1⟩ (Nat.succ_pos k)
          (by simp [finalizeSchedule])
        simp only [hf] at h0
        subst h0
        simp only [finalizeSchedule, List.getElem?_cons_succ, hf] at hk
        have := ih w1 k hk (fun j y hj hy =>
          hbefore (j + 1) y (Nat.succ_lt_succ hj) (by simpa [finalizeSchedule, hf] using hy))
        simp [finalizeAll, hf, this.1, this.2]

/-- When no finalization fails the loop finalizes every tarball and returns no
error. -/
theorem finalizeAll_of_no_failure {W R : Type} (sys : Sys W R) (img : OCIImage) (w : W)
    (paths : List String) (h : ∀ y ∈ finalizeSchedule sys img w paths, y.err = none) :
    (finalizeAll sys img w paths).paths = paths ∧ (finalizeAll sys img w paths).err = none := by
  induction paths generalizing w with
  | nil => simp [finalizeAll]
  | cons p rest ih =>
    cases hf : finalize sys w img p with
    | mk ef w1 =>
      have h0 := h ⟨w, p, (finalize sys w img p).1⟩ (by simp [finalizeSchedule])
      simp only [hf] at h0
      subst h0
      have := ih w1 (fun y hy => h y (by simp [finalizeSchedule, hf, hy]))
      simp [finalizeAll, hf, this.1, this.2]

/-- C8 as amended: finalization starts only after every daemon call has
succeeded, and stops at its first failure.  Whenever compilation succeeds, the
tarballs to finalize are those of the plans whose directory exists, one per such
plan, in plan order.  If a daemon call fails, `Build` returns that error and
finalizes nothing.  Otherwise the scheduled finalizations are those of these
tarballs, the first in the world the builds left and each later one in the world
its predecessor left.  If the finalization at position `k` is the first that
fails, `Build` has run exactly the finalizations at positions `0 .. k`, once
each and in that order, none after `k`, and returns the error of that
finalization; if none fails, `Build` has run exactly one finalization per plan
that has a directory, in plan order, and returns no error. -/
theorem finalization_after_all_builds {W R : Type} (sys : Sys W R) (w : W) (img : OCIImage)
    (buildkitd : Buildkitd) (outputsDir : String) (plans : Plans)
    (h : (compile sys w img outputsDir).1 = .ok plans) :
    plans.imagePaths = img.AdditionalTargets.filterMap (outputPath? sys w outputsDir)
      ++ (outputPath? sys w outputsDir "image").toList ∧
    (∀ e, (runBuilds sys buildkitd.Addr (filepath.Join [outputsDir, "cache"]) w plans.builds).err
        = some e →
      (Build sys w img buildkitd outputsDir).result = .error e ∧
        ∀ p, Event.finalize p ∉ (Build sys w img buildkitd outputsDir).events) ∧
    ((runBuilds sys buildkitd.Addr (filepath.Join [outputsDir, "cache"]) w plans.builds).err
        = none →
      (finalizeSchedule sys (defaulted img)
        (runBuilds sys buildkitd.Addr (filepath.Join [outputsDir, "cache"]) w
          plans.builds).world plans.imagePaths).length
        = plans.imagePaths.length ∧
      (∀ (i : Nat) (x : Finalization W),
        (finalizeSchedule sys (defaulted img)
        (runBuilds sys buildkitd.Addr (filepath.Join [outputsDir, "cache"]) w
          plans.builds).world plans.imagePaths)[i]? = some x →
        plans.imagePaths[i]? = some x.imagePath ∧
          x.err = (finalize sys x.before (defaulted img) x.imagePath).1) ∧
      (∀ x, (finalizeSchedule sys (defaulted img)
        (runBuilds sys buildkitd.Addr (filepath.Join [outputsDir, "cache"]) w
          plans.builds).world plans.imagePaths)[0]? = some x →
        x.before = (runBuilds sys buildkitd.Addr (filepath.Join [outputsDir, "cache"]) w
          plans.builds).world) ∧
      (∀ (i : Nat) (x y : Finalization W),
        (finalizeSchedule sys (defaulted img)
        (runBuilds sys buildkitd.Addr (filepath.Join [outputsDir, "cache"]) w
          plans.builds).world plans.imagePaths)[i]? = some x →
        (finalizeSchedule sys (defaulted img)
        (runBuilds sys buildkitd.Addr (filepath.Join [outputsDir, "cache"]) w
          plans.builds).world plans.imagePaths)[i + 1]? = some y →
        y.before = (finalize sys x.before (defaulted img) x.imagePath).2) ∧
      (∀ (k : Nat) (x : Finalization W) (e : String),
        (finalizeSchedule sys (defaulted img)
        (runBuilds sys buildkitd.Addr (filepath.Join [outputsDir, "cache"]) w
          plans.builds).world plans.imagePaths)[k]? = some x →
        x.err = some e →
        (∀ (j : Nat) (y : Finalization W), j < k →
          (finalizeSchedule sys (defaulted img)
        (runBuilds sys buildkitd.Addr (filepath.Join [outputsDir, "cache"]) w
          plans.builds).world plans.imagePaths)[j]? = some y → y.err = none) →
        (Build sys w img buildkitd outputsDir).result = .error e ∧
          (finalizeAll sys (defaulted img)
        (runBuilds sys buildkitd.Addr (filepath.Join [outputsDir, "cache"]) w
          plans.builds).world plans.imagePaths).paths
            = plans.imagePaths.take (k + 1) ∧
          (Build sys w img buildkitd outputsDir).events = (compile sys w img outputsDir).2 ++
            (runBuilds sys buildkitd.Addr (filepath.Join [outputsDir, "cache"]) w
              plans.builds).trace.map (Invocation.toEvent buildkitd.Addr) ++
            (plans.imagePaths.take (k + 1)).map Event.finalize) ∧
      ((∀ y ∈ (finalizeSchedule sys (defaulted img)
        (runBuilds sys buildkitd.Addr (filepath.Join [outputsDir, "cache"]) w
          plans.builds).world plans.imagePaths), y.err = none) →
        (Build sys w img buildkitd outputsDir).result = .ok () ∧
          (finalizeAll sys (defaulted img)
        (runBuilds sys buildkitd.Addr (filepath.Join [outputsDir, "cache"]) w
          plans.builds).world plans.imagePaths).paths
            = plans.imagePaths ∧
          (Build sys w img buildkitd outputsDir).events = (compile sys w img outputsDir).2 ++
            (runBuilds sys buildkitd.Addr (filepath.Join [outputsDir, "cache"]) w
              plans.builds).trace.map (Invocation.toEvent buildkitd.Addr) ++
            plans.imagePaths.map Event.finalize)) := by
  obtain ⟨-, -, -, -, hpaths⟩ := compile_ok_plans sys w img outputsDir plans h
  have hB := Build_of_compile_ok sys w img buildkitd outputsDir plans h
  refine ⟨hpaths, ?_, ?_⟩
  · intro e he
    rw [he] at hB
    rw [hB]
    refine ⟨rfl, ?_⟩
    intro p hp
    simp only [List.mem_append, List.mem_map] at hp
    rcases hp with hp | ⟨x, -, hx⟩
    · rcases compile_events sys w img outputsDir _ hp with ⟨m, hm⟩ | hm <;> cases hm
    · simp [Invocation.toEvent] at hx
  · intro he
    rw [he] at hB
    refine ⟨finalizeSchedule_length sys _ _ _, finalizeSchedule_getElem? sys _ _ _,
      (finalizeSchedule_before sys _ _ _).1, (finalizeSchedule_before sys _ _ _).2, ?_, ?_⟩
    · intro k x e hk hx hbefore
      obtain ⟨h1, h2⟩ := finalizeAll_of_first_failure sys _ _ _ k x e hk hx hbefore
      refine ⟨?_, h1, ?_⟩
      · rw [hB]
        simp only [h2]
      · rw [hB]
        simp only [h1]
    · intro hall
      obtain ⟨h1, h2⟩ := finalizeAll_of_no_failure sys _ _ _ hall
      refine ⟨?_, h1, ?_⟩
      · rw [hB]
        simp only [h2]
      · rw [hB]
        simp only [h1]

/-- C8 as amended, on a request whose first tarball cannot be finalized: both
builds succeed, the digest of `locked` cannot be written, so `Build` returns
that error having run that one finalization, and the tarball of the primary
plan, though built, is not finalized. -/
theorem finalization_after_all_builds_witness :
    (compile sampleSys lockedWorld lockedFirst "/out").1 = .ok lockedPlans ∧
      (runBuilds sampleSys sampleDaemon.Addr (filepath.Join ["/out", "cache"]) lockedWorld
        lockedPlans.builds).err = none ∧
      (finalizeSchedule sampleSys (defaulted lockedFirst)
        (runBuilds sampleSys sampleDaemon.Addr (filepath.Join ["/out", "cache"]) lockedWorld
          lockedPlans.builds).world lockedPlans.imagePaths)[0]? = some lockedFailed ∧
      ((Build sampleSys lockedWorld lockedFirst sampleDaemon "/out").result
          = .error "write digest file: permission denied" ∧
        (finalizeAll sampleSys (defaulted lockedFirst)
          (runBuilds sampleSys sampleDaemon.Addr (filepath.Join ["/out", "cache"]) lockedWorld
            lockedPlans.builds).world lockedPlans.imagePaths).paths
          = lockedPlans.imagePaths.take (0 + 1) ∧
        (Build sampleSys lockedWorld lockedFirst sampleDaemon "/out").events
          = (compile sampleSys lockedWorld lockedFirst "/out").2 ++
            (runBuilds sampleSys sampleDaemon.Addr (filepath.Join ["/out", "cache"]) lockedWorld
              lockedPlans.builds).trace.map (Invocation.toEvent sampleDaemon.Addr) ++
            (lockedPlans.imagePaths.take (0 + 1)).map Event.finalize) ∧
      (lockedPlans.imagePaths.take (0 + 1)).map Event.finalize
        = [Event.finalize "/out/locked/image.tar"] :=
  ⟨by decide, by decide, by decide,
    ((finalization_after_all_builds sampleSys lockedWorld lockedFirst sampleDaemon "/out"
      lockedPlans (by decide)).2.2 (by decide)).2.2.2.2.1 0 lockedFailed
      "write digest file: permission denied" (by decide) rfl
      (fun j _ hj _ => absurd hj (Nat.not_lt_zero j)),
    by decide⟩

/-- C7 fails on the code: in a run of `RunBuild` in which the daemon starts and
the second build fails, `RunBuild` returns the error right after `Build`; the
log ends with the failed call and holds no cleanup.  In a run in which every
step succeeds the cleanup is the last action. -/
theorem no_cleanup_when_build_fails :
    (RunBuild sampleSys sampleWorld brokenSecond).result
        = .error "build: build: exit status 1" ∧
      (RunBuild sampleSys sampleWorld brokenSecond).events
        = [Event.spawnBuildkitd,
            Event.buildctl sampleDaemon.Addr brokenSecondFirstCall.args none,
            Event.buildctl sampleDaemon.Addr brokenSecondFailedCall.args
              (some "exit status 1")] ∧
      Event.cleanup ∉ (RunBuild sampleSys sampleWorld brokenSecond).events ∧
      (RunBuild sampleSys sampleWorld twoTargets).result = .ok () ∧
      (RunBuild sampleSys sampleWorld twoTargets).events.getLast? = some Event.cleanup := by
  decide

/-- C10 fails on the code: for a request whose only image-preload entry has no
`=`, `Build` does not return an error but panics on `segs[1]`, the index being
out of range; `sanitize` accepts the request unchanged but for its defaults.
The panic comes before the registry is loaded and before any daemon call. -/
theorem malformed_preload_panics :
    strings.SplitN2 "first_image" '=' = ["first_image"] ∧
      sanitize malformedPreload = .ok (defaulted malformedPreload) ∧
      (defaulted malformedPreload).ImageArgs = ["first_image"] ∧
      (Build sampleSys sampleWorld malformedPreload sampleDaemon "/out").result
        = .panic "runtime error: index out of range [1] with length 1" ∧
      (Build sampleSys sampleWorld malformedPreload sampleDaemon "/out").events = [] :=
  ⟨by decide, sanitize_eq malformedPreload, by decide, by decide, by decide⟩

/-! ## Lemmas: what a finalization writes -/

theorem finalizeTrace_map_snd {W R : Type} (sys : Sys W R) (img : OCIImage) (w : W)
    (paths : List String) :
    (finalizeTrace sys img w paths).map Prod.snd = (finalizeAll sys img w paths).paths := by
  induction paths generalizing w with
  | nil => rfl
  | cons p rest ih =>
    simp only [finalizeTrace, finalizeAll]
    cases h : finalize sys w img p with
    | mk e w1 =>
      cases e with
      | some e => rfl
      | none => simp [ih w1]

/-- The first finalization runs in the world the builds left; each later one
runs in the world its predecessor left, and its predecessor succeeded. -/
theorem finalizeTrace_chain {W R : Type} (sys : Sys W R) (img : OCIImage) (w : W)
    (paths : List String) :
    (∀ x, (finalizeTrace sys img w paths)[0]? = some x → x.1 = w) ∧
    ∀ (i : Nat) (x y : W × String),
      (finalizeTrace sys img w paths)[i]? = some x →
      (finalizeTrace sys img w paths)[i + 1]? = some y →
      (finalize sys x.1 img x.2).1 = none ∧ y.1 = (finalize sys x.1 img x.2).2 := by
  induction paths generalizing w with
  | nil => simp [finalizeTrace]
  | cons p rest ih =>
    simp only [finalizeTrace]
    cases h : finalize sys w img p with
    | mk e w1 =>
      cases e with
      | some e =>
        refine ⟨fun x hx => ?_, fun i x y hx hy => ?_⟩
        · simp only [List.getElem?_cons_zero, Option.some.injEq] at hx
          subst hx
          rfl
        · simp at hy
      | none =>
        refine ⟨fun x hx => ?_, fun i x y hx hy => ?_⟩
        · simp only [List.getElem?_cons_zero, Option.some.injEq] at hx
          subst hx
          rfl
        · cases i with
          | zero =>
            simp only [List.getElem?_cons_zero, Option.some.injEq] at hx
            simp only [Nat.zero_add, List.getElem?_cons_succ] at hy
            subst hx
            simp only [h]
            exact ⟨trivial, (ih w1).1 y hy⟩
          | succ i =>
            simp only [List.getElem?_cons_succ] at hx hy
            exact (ih w1).2 i x y hx hy

/-- When the loop returns no error, every finalization it started succeeded. -/
theorem finalizeTrace_all_succeed {W R : Type} (sys : Sys W R) (img : OCIImage) (w : W)
    (paths : List String) (h : (finalizeAll sys img w paths).err = none) :
    ∀ x ∈ finalizeTrace sys img w paths, (finalize sys x.1 img x.2).1 = none := by
  induction paths generalizing w with
  | nil => simp [finalizeTrace]
  | cons p rest ih =>
    simp only [finalizeTrace, finalizeAll] at h ⊢
    cases hf : finalize sys w img p with
    | mk e w1 =>
      rw [hf] at h
      cases e with
      | some e => simp at h
      | none =>
        simp only at h ⊢
        intro x hx
        simp only [List.mem_cons] at hx
        rcases hx with rfl | hx
        · simp [hf]
        · exact ih w1 h x hx

/-- A finalization that succeeds has decoded the tarball and its manifest and
written the digest file with one `WriteFile` call. -/
theorem finalize_writes_digest {W R : Type} (sys : Sys W R) (w : W) (img : OCIImage)
    (p : String) (h : (finalize sys w img p).1 = none) :
    ∃ image manifest, sys.imageFromPath w p = .ok image ∧ image.Manifest = .ok manifest ∧
      writeDigest sys w (filepath.Dir p) image
        = (none, (sys.writeFile w (filepath.Join [filepath.Dir p, "digest"])
            manifest.ConfigDigest).2) ∧
      (sys.writeFile w (filepath.Join [filepath.Dir p, "digest"]) manifest.ConfigDigest).1
        = none ∧
      (img.UnpackRootfs = false →
        (finalize sys w img p).2 = (writeDigest sys w (filepath.Dir p) image).2) := by
  unfold finalize at h ⊢
  cases hi : sys.imageFromPath w p with
  | error e => simp [hi] at h
  | ok image =>
    simp only [hi] at h ⊢
    cases hm : image.Manifest with
    | error e => simp [writeDigest, hm] at h
    | ok manifest =>
      cases hw : sys.writeFile w (filepath.Join [filepath.Dir p, "digest"])
          manifest.ConfigDigest with
      | mk e w1 =>
        cases e with
        | some e => simp [writeDigest, hm, hw] at h
        | none =>
          refine ⟨image, manifest, rfl, hm, by simp [writeDigest, hm, hw], by rw [hw], ?_⟩
          intro hu
          simp [writeDigest, hm, hw, hu]

/-- A finalization that succeeds with unpacking requested has, after the digest
and the root filesystem, created the metadata file, encoded into it the record
made of the config's `Env` and `User`, and closed it; that is its last step. -/
theorem finalize_writes_metadata {W R : Type} (sys : Sys W R) (w : W) (img : OCIImage)
    (p : String) (h : (finalize sys w img p).1 = none) (hu : img.UnpackRootfs = true) :
    ∃ image cfg, ∃ (w1 w2 w3 w4 : W),
      sys.imageFromPath w p = .ok image ∧ image.ConfigFile = .ok cfg ∧
      writeDigest sys w (filepath.Dir p) image = (none, w1) ∧
      sys.unpackImage w1 (filepath.Join [filepath.Dir p, "rootfs"]) image img.Debug
        = (none, w2) ∧
      sys.create w2 (filepath.Join [filepath.Dir p, "metadata.json"]) = (none, w3) ∧
      sys.encode w3 (filepath.Join [filepath.Dir p, "metadata.json"]) ⟨cfg.Env, cfg.User⟩
        = (none, w4) ∧
      sys.close w4 (filepath.Join [filepath.Dir p, "metadata.json"])
        = (none, (finalize sys w img p).2) := by
  unfold finalize at h ⊢
  cases hi : sys.imageFromPath w p with
  | error e => simp [hi] at h
  | ok image =>
    simp only [hi, hu, if_true] at h ⊢
    cases hd : writeDigest sys w (filepath.Dir p) image with
    | mk ed w1 =>
      simp only [hd] at h ⊢
      cases ed with
      | some e => simp at h
      | none =>
        simp only at h ⊢
        unfold unpackRootfs at h ⊢
        cases hun : sys.unpackImage w1 (filepath.Join [filepath.Dir p, "rootfs"]) image
            img.Debug with
        | mk eu w2 =>
          simp only [hun] at h ⊢
          cases eu with
          | some e => simp at h
          | none =>
            simp only at h ⊢
            unfold writeImageMetadata at h ⊢
            cases hcfg : image.ConfigFile with
            | error e => simp [hcfg] at h
            | ok cfg =>
              simp only [hcfg] at h ⊢
              cases hcr : sys.create w2 (filepath.Join [filepath.Dir p, "metadata.json"]) with
              | mk ec w3 =>
                simp only [hcr] at h ⊢
                cases ec with
                | some e => simp at h
                | none =>
                  simp only at h ⊢
                  cases hen : sys.encode w3 (filepath.Join [filepath.Dir p, "metadata.json"])
                      ⟨cfg.Env, cfg.User⟩ with
                  | mk ee w4 =>
                    simp only [hen] at h ⊢
                    cases ee with
                    | some e => simp at h
                    | none =>
                      simp only at h ⊢
                      cases hcl : sys.close w4
                          (filepath.Join [filepath.Dir p, "metadata.json"]) with
                      | mk el w5 =>
                        simp only [hcl] at h ⊢
                        cases el with
                        | some e => simp at h
                        | none =>
                          exact ⟨image, cfg, w1, w2, w3, w4, rfl, hcfg, hd, hun, hcr, hen,
                            hcl⟩

theorem diskSys_writeFile_read (w : List (String × Content)) (p d : String)
    (w1 : List (String × Content)) (h : diskSys.writeFile w p d = (none, w1)) :
    diskReadFile w1 p = some d := by
  simp only [diskSys, Prod.mk.injEq, true_and] at h
  subst h
  simp [diskReadFile, lookupEntry]

theorem diskSys_encode_read (w : List (String × Content)) (p : String) (m : ImageMetadata)
    (w1 w2 w3 : List (String × Content)) (hc : diskSys.create w p = (none, w1))
    (he : diskSys.encode w1 p m = (none, w2)) (hl : diskSys.close w2 p = (none, w3)) :
    diskReadMetadata w3 p = some m := by
  simp only [diskSys, Prod.mk.injEq, true_and] at hc he hl
  subst hc he hl
  simp [diskReadMetadata, lookupEntry]

/-- When `Build` returns no error, its daemon calls all succeeded and it
finalized the tarball of every plan that has one, each successfully. -/
theorem Build_ok_finalizes_all {W R : Type} (sys : Sys W R) (w : W) (img : OCIImage)
    (buildkitd : Buildkitd) (outputsDir : String) (plans : Plans)
    (hc : (compile sys w img outputsDir).1 = .ok plans)
    (hok : (Build sys w img buildkitd outputsDir).result = .ok ()) :
    (runBuilds sys buildkitd.Addr (filepath.Join [outputsDir, "cache"]) w plans.builds).err
      = none ∧
    (finalizeTrace sys (defaulted img)
      (runBuilds sys buildkitd.Addr (filepath.Join [outputsDir, "cache"]) w
        plans.builds).world plans.imagePaths).map Prod.snd = plans.imagePaths ∧
    ∀ x ∈ finalizeTrace sys (defaulted img)
      (runBuilds sys buildkitd.Addr (filepath.Join [outputsDir, "cache"]) w
        plans.builds).world plans.imagePaths,
      (finalize sys x.1 (defaulted img) x.2).1 = none := by
  have hB := Build_of_compile_ok sys w img buildkitd outputsDir plans hc
  rw [hB] at hok
  cases he : (runBuilds sys buildkitd.Addr (filepath.Join [outputsDir, "cache"]) w
      plans.builds).err with
  | some e => simp [he] at hok
  | none =>
    simp only [he] at hok
    cases hf : (finalizeAll sys (defaulted img)
      (runBuilds sys buildkitd.Addr (filepath.Join [outputsDir, "cache"]) w
        plans.builds).world plans.imagePaths).err with
    | some e => simp [hf] at hok
    | none =>
      obtain ⟨-, hnone, -⟩ := finalizeAll_spec sys (defaulted img)
        (runBuilds sys buildkitd.Addr (filepath.Join [outputsDir, "cache"]) w
          plans.builds).world plans.imagePaths
      exact ⟨rfl, by rw [finalizeTrace_map_snd, hnone hf],
        finalizeTrace_all_succeed sys _ _ _ hf⟩

/-- C11: the digest file holds exactly the config digest.  Let reading a file
right after `WriteFile` succeeded on it return what was written.  Then every
finalization that succeeds has decoded the tarball and its manifest and written,
with one `WriteFile` call, the file `digest` in the directory of the tarball,
whose content right after the call is the string form of the manifest's config
digest, nothing added; without unpacking that is the world the finalization
leaves.  The finalizations `Build` runs after its daemon calls are those of the
tarballs of its plans, in plan order, each in the world its predecessor left,
and all succeed when `Build` returns no error from that loop. -/
theorem digest_file_holds_config_digest {W R : Type} (sys : Sys W R)
    (readFile : W → String → Option String)
    (hwrite : ∀ (w0 : W) (p d : String) (w1 : W),
      sys.writeFile w0 p d = (none, w1) → readFile w1 p = some d)
    (w : W) (img : OCIImage) (buildkitd : Buildkitd) (outputsDir : String) (plans : Plans) :
    (∀ (w0 : W) (p : String), (finalize sys w0 (defaulted img) p).1 = none →
      ∃ image manifest, sys.imageFromPath w0 p = .ok image ∧ image.Manifest = .ok manifest ∧
        writeDigest sys w0 (filepath.Dir p) image
          = (none, (sys.writeFile w0 (filepath.Join [filepath.Dir p, "digest"])
              manifest.ConfigDigest).2) ∧
        readFile (writeDigest sys w0 (filepath.Dir p) image).2
          (filepath.Join [filepath.Dir p, "digest"]) = some manifest.ConfigDigest ∧
        (img.UnpackRootfs = false →
          readFile (finalize sys w0 (defaulted img) p).2
            (filepath.Join [filepath.Dir p, "digest"]) = some manifest.ConfigDigest)) ∧
    ((compile sys w img outputsDir).1 = .ok plans →
      (runBuilds sys buildkitd.Addr (filepath.Join [outputsDir, "cache"]) w plans.builds).err
        = none →
      (Build sys w img buildkitd outputsDir).events = (compile sys w img outputsDir).2 ++
        (runBuilds sys buildkitd.Addr (filepath.Join [outputsDir, "cache"]) w
          plans.builds).trace.map (Invocation.toEvent buildkitd.Addr) ++
        ((finalizeTrace sys (defaulted img)
          (runBuilds sys buildkitd.Addr (filepath.Join [outputsDir, "cache"]) w
            plans.builds).world plans.imagePaths).map Prod.snd).map Event.finalize ∧
      (∀ x, (finalizeTrace sys (defaulted img)
          (runBuilds sys buildkitd.Addr (filepath.Join [outputsDir, "cache"]) w
            plans.builds).world plans.imagePaths)[0]? = some x →
        x.1 = (runBuilds sys buildkitd.Addr (filepath.Join [outputsDir, "cache"]) w
          plans.builds).world) ∧
      (∀ (i : Nat) (x y : W × String),
        (finalizeTrace sys (defaulted img)
          (runBuilds sys buildkitd.Addr (filepath.Join [outputsDir, "cache"]) w
            plans.builds).world plans.imagePaths)[i]? = some x →
        (finalizeTrace sys (defaulted img)
          (runBuilds sys buildkitd.Addr (filepath.Join [outputsDir, "cache"]) w
            plans.builds).world plans.imagePaths)[i + 1]? = some y →
        (finalize sys x.1 (defaulted img) x.2).1 = none ∧
          y.1 = (finalize sys x.1 (defaulted img) x.2).2) ∧
      ((Build sys w img buildkitd outputsDir).result = .ok () →
        (finalizeTrace sys (defaulted img)
          (runBuilds sys buildkitd.Addr (filepath.Join [outputsDir, "cache"]) w
            plans.builds).world plans.imagePaths).map Prod.snd = plans.imagePaths ∧
        ∀ x ∈ finalizeTrace sys (defaulted img)
          (runBuilds sys buildkitd.Addr (filepath.Join [outputsDir, "cache"]) w
            plans.builds).world plans.imagePaths,
          (finalize sys x.1 (defaulted img) x.2).1 = none)) := by
  constructor
  · intro w0 p h
    obtain ⟨image, manifest, h1, h2, h3, h4, h5⟩ := finalize_writes_digest sys w0 _ p h
    refine ⟨image, manifest, h1, h2, h3, ?_, ?_⟩
    · rw [h3]
      exact hwrite _ _ _ _ (Prod.ext h4 rfl)
    · intro hu
      rw [h5 hu, h3]
      exact hwrite _ _ _ _ (Prod.ext h4 rfl)
  · intro hc he
    have hB := Build_of_compile_ok sys w img buildkitd outputsDir plans hc
    rw [he] at hB
    obtain ⟨-, hnone, -⟩ := finalizeAll_spec sys (defaulted img)
      (runBuilds sys buildkitd.Addr (filepath.Join [outputsDir, "cache"]) w plans.builds).world
      plans.imagePaths
    obtain ⟨c1, c2⟩ := finalizeTrace_chain sys (defaulted img)
      (runBuilds sys buildkitd.Addr (filepath.Join [outputsDir, "cache"]) w plans.builds).world
      plans.imagePaths
    refine ⟨by rw [hB, finalizeTrace_map_snd], c1, c2, ?_⟩
    intro hok
    exact (Build_ok_finalizes_all sys w img buildkitd outputsDir plans hc hok).2

/-- C11, on a built disk: finalizing the tarball of target `a` writes the file
`/out/a/digest`, which then holds the config digest of the decoded image. -/
theorem digest_file_holds_config_digest_witness :
    (finalize diskSys builtDisk (defaulted unpackRequest) "/out/a/image.tar").1 = none ∧
      ∃ image manifest, diskSys.imageFromPath builtDisk "/out/a/image.tar" = .ok image ∧
        image.Manifest = .ok manifest ∧
        writeDigest diskSys builtDisk (filepath.Dir "/out/a/image.tar") image
          = (none, (diskSys.writeFile builtDisk
              (filepath.Join [filepath.Dir "/out/a/image.tar", "digest"])
              manifest.ConfigDigest).2) ∧
        diskReadFile (writeDigest diskSys builtDisk (filepath.Dir "/out/a/image.tar") image).2
          (filepath.Join [filepath.Dir "/out/a/image.tar", "digest"])
            = some manifest.ConfigDigest ∧
        (unpackRequest.UnpackRootfs = false →
          diskReadFile (finalize diskSys builtDisk (defaulted unpackRequest)
            "/out/a/image.tar").2 (filepath.Join [filepath.Dir "/out/a/image.tar", "digest"])
            = some manifest.ConfigDigest) :=
  ⟨by decide,
    (digest_file_holds_config_digest diskSys diskReadFile diskSys_writeFile_read sampleDisk
      unpackRequest sampleDaemon "/out" unpackPlans).1 builtDisk "/out/a/image.tar"
      (by decide)⟩

/-- A whole run on the sample disk: after `Build`, the digest file of each
target holds the config digest and each `metadata.json` decodes to the config's
environment and user. -/
theorem disk_build_example :
    (Build diskSys sampleDisk unpackRequest sampleDaemon "/out").result = .ok () ∧
      diskReadFile (Build diskSys sampleDisk unpackRequest sampleDaemon "/out").world
        "/out/a/digest" = some "sha256:5e2b1d" ∧
      diskReadFile (Build diskSys sampleDisk unpackRequest sampleDaemon "/out").world
        "/out/image/digest" = some "sha256:5e2b1d" ∧
      diskReadMetadata (Build diskSys sampleDisk unpackRequest sampleDaemon "/out").world
        "/out/a/metadata.json" = some ⟨["PATH=/darkness", "BA=nana"], "banana"⟩ ∧
      diskReadMetadata (Build diskSys sampleDisk unpackRequest sampleDaemon "/out").world
        "/out/image/metadata.json" = some ⟨["PATH=/darkness", "BA=nana"], "banana"⟩ := by
  decide

/-- C12: `metadata.json` reproduces the config's environment and user.  Let
decoding the JSON document of a file that was created, encoded into once and
closed return the record that was encoded.  Then every finalization that
succeeds with unpacking requested has decoded the tarball and its config file,
and leaves in the directory of the tarball a `metadata.json` that decodes to the
record whose environment list is the config's `Env`, same elements in the same
order, and whose user is the config's `User`.  When `Build` returns no error it
has run such a finalization for the tarball of every plan that has one. -/
theorem metadata_reproduces_config {W R : Type} (sys : Sys W R)
    (readMetadata : W → String → Option ImageMetadata)
    (hjson : ∀ (w0 : W) (p : String) (m : ImageMetadata) (w1 w2 w3 : W),
      sys.create w0 p = (none, w1) → sys.encode w1 p m = (none, w2) →
      sys.close w2 p = (none, w3) → readMetadata w3 p = some m)
    (w : W) (img : OCIImage) (buildkitd : Buildkitd) (outputsDir : String) (plans : Plans)
    (hu : img.UnpackRootfs = true) :
    (∀ (w0 : W) (p : String), (finalize sys w0 (defaulted img) p).1 = none →
      ∃ image cfg, sys.imageFromPath w0 p = .ok image ∧ image.ConfigFile = .ok cfg ∧
        readMetadata (finalize sys w0 (defaulted img) p).2
          (filepath.Join [filepath.Dir p, "metadata.json"]) = some ⟨cfg.Env, cfg.User⟩) ∧
    ((compile sys w img outputsDir).1 = .ok plans →
      (Build sys w img buildkitd outputsDir).result = .ok () →
      (finalizeTrace sys (defaulted img)
        (runBuilds sys buildkitd.Addr (filepath.Join [outputsDir, "cache"]) w
          plans.builds).world plans.imagePaths).map Prod.snd = plans.imagePaths ∧
      ∀ x ∈ finalizeTrace sys (defaulted img)
        (runBuilds sys buildkitd.Addr (filepath.Join [outputsDir, "cache"]) w
          plans.builds).world plans.imagePaths,
        ∃ image cfg, sys.imageFromPath x.1 x.2 = .ok image ∧ image.ConfigFile = .ok cfg ∧
          readMetadata (finalize sys x.1 (defaulted img) x.2).2
            (filepath.Join [filepath.Dir x.2, "metadata.json"])
              = some ⟨cfg.Env, cfg.User⟩) := by
  have step : ∀ (w0 : W) (p : String), (finalize sys w0 (defaulted img) p).1 = none →
      ∃ image cfg, sys.imageFromPath w0 p = .ok image ∧ image.ConfigFile = .ok cfg ∧
        readMetadata (finalize sys w0 (defaulted img) p).2
          (filepath.Join [filepath.Dir p, "metadata.json"]) = some ⟨cfg.Env, cfg.User⟩ := by
    intro w0 p h
    obtain ⟨image, cfg, w1, w2, w3, w4, h1, h2, -, -, h5, h6, h7⟩ :=
      finalize_writes_metadata sys w0 (defaulted img) p h (by simpa [defaulted] using hu)
    exact ⟨image, cfg, h1, h2, hjson _ _ _ _ _ _ h5 h6 h7⟩
  refine ⟨step, ?_⟩
  intro hc hok
  obtain ⟨-, h2, h3⟩ := Build_ok_finalizes_all sys w img buildkitd outputsDir plans hc hok
  exact ⟨h2, fun x hx => step x.1 x.2 (h3 x hx)⟩

/-- C12, on a built disk: finalizing the tarball of target `a` with unpacking
leaves a `metadata.json` that decodes to the environment and user of the image's
config, `PATH=/darkness`, `BA=nana` and `banana`. -/
theorem metadata_reproduces_config_witness :
    unpackRequest.UnpackRootfs = true ∧
      (finalize diskSys builtDisk (defaulted unpackRequest) "/out/a/image.tar").1 = none ∧
      bananaImage.ConfigFile = .ok ⟨["PATH=/darkness", "BA=nana"], "banana"⟩ ∧
      ∃ image cfg, diskSys.imageFromPath builtDisk "/out/a/image.tar" = .ok image ∧
        image.ConfigFile = .ok cfg ∧
        diskReadMetadata (finalize diskSys builtDisk (defaulted unpackRequest)
          "/out/a/image.tar").2 (filepath.Join [filepath.Dir "/out/a/image.tar", "metadata.json"])
            = some ⟨cfg.Env, cfg.User⟩ :=
  ⟨by decide, by decide, rfl,
    (metadata_reproduces_config diskSys diskReadMetadata diskSys_encode_read sampleDisk
      unpackRequest sampleDaemon "/out" unpackPlans (by decide)).1 builtDisk
      "/out/a/image.tar" (by decide)⟩

/-! ## Lemmas: `Clean` on paths of kept elements -/

theorem splitSep_ne_nil (p : List Char) : filepath.splitSep p ≠ [] := by
  cases p with
  | nil => simp [filepath.splitSep]
  | cons c cs =>
    simp only [filepath.splitSep]
    split
    · simp
    · split <;> simp

theorem splitSep_cons (c : Char) (cs : List Char) :
    filepath.splitSep (c :: cs) =
      if c = '/' then [] :: filepath.splitSep cs
      else ((filepath.splitSep cs).head?.getD [] |> (c :: ·)) :: (filepath.splitSep cs).tail := by
  simp only [filepath.splitSep]
  cases h : filepath.splitSep cs with
  | nil => exact absurd h (splitSep_ne_nil cs)
  | cons x xs => simp

theorem splitSep_append_sep (a b : List Char) :
    filepath.splitSep (a ++ '/' :: b) = filepath.splitSep a ++ filepath.splitSep b := by
  induction a with
  | nil =>
    rw [List.nil_append, splitSep_cons]
    simp [filepath.splitSep]
  | cons c a ih =>
    rw [List.cons_append, splitSep_cons, ih, splitSep_cons c a]
    cases h : filepath.splitSep a with
    | nil => exact absurd h (splitSep_ne_nil a)
    | cons x xs =>
      by_cases hc : c = '/' <;> simp [hc]

theorem splitSep_of_no_sep (e : List Char) (h : '/' ∉ e) : filepath.splitSep e = [e] := by
  induction e with
  | nil => rfl
  | cons c e ih =>
    simp only [List.mem_cons, not_or] at h
    rw [splitSep_cons, ih h.2]
    have hc : ¬ c = '/' := fun hc => h.1 hc.symm
    simp [hc]

theorem no_sep_of_mem_splitSep (p : List Char) : ∀ e ∈ filepath.splitSep p, '/' ∉ e := by
  induction p with
  | nil => simp [filepath.splitSep]
  | cons c p ih =>
    rw [splitSep_cons]
    cases h : filepath.splitSep p with
    | nil => exact absurd h (splitSep_ne_nil p)
    | cons x xs =>
      rw [h] at ih
      by_cases hc : c = '/'
      · simp only [hc, if_true]
        intro e he
        simp only [List.mem_cons] at he
        rcases he with rfl | he
        · simp
        · exact ih e (by simpa using he)
      · simp only [hc, if_false, List.head?_cons, Option.getD_some, List.tail_cons]
        intro e he
        simp only [List.mem_cons] at he
        rcases he with rfl | he
        · simp only [List.mem_cons, not_or]
          exact ⟨fun h1 => hc h1.symm, ih x (by simp)⟩
        · exact ih e (by simp [he])

theorem joinSep_cons_cons (e e1 : List Char) (es : List (List Char)) :
    filepath.joinSep (e :: e1 :: es) = e ++ '/' :: filepath.joinSep (e1 :: es) := by
  simp [filepath.joinSep]

theorem joinSep_append_singleton (L : List (List Char)) (e : List Char) (h : L ≠ []) :
    filepath.joinSep (L ++ [e]) = filepath.joinSep L ++ '/' :: e := by
  induction L with
  | nil => exact absurd rfl h
  | cons x xs ih =>
    cases xs with
    | nil => simp [filepath.joinSep]
    | cons y ys =>
      rw [List.cons_append, List.cons_append, joinSep_cons_cons, joinSep_cons_cons,
        ← List.cons_append, ih (by simp)]
      simp

theorem splitSep_joinSep (L : List (List Char)) (hne : L ≠ []) (h : ∀ e ∈ L, '/' ∉ e) :
    filepath.splitSep (filepath.joinSep L) = L := by
  induction L with
  | nil => exact absurd rfl hne
  | cons x xs ih =>
    cases xs with
    | nil => simpa [filepath.joinSep] using splitSep_of_no_sep x (h x (by simp))
    | cons y ys =>
      rw [joinSep_cons_cons, splitSep_append_sep, splitSep_of_no_sep x (h x (by simp)),
        ih (by simp) (fun e he => h e (by simp [he]))]
      rfl

theorem cleanStep_real (rooted : Bool) (out : List (List Char)) (e : List Char)
    (h : RealElem e) : filepath.cleanStep rooted out e = e :: out := by
  obtain ⟨h1, -, h3, h4⟩ := h
  simp [filepath.cleanStep, h1, h3, h4]

theorem foldl_cleanStep_reals (rooted : Bool) (L : List (List Char))
    (h : ∀ e ∈ L, RealElem e) (out : List (List Char)) :
    L.foldl (filepath.cleanStep rooted) out = L.reverse ++ out := by
  induction L generalizing out with
  | nil => rfl
  | cons e L ih =>
    rw [List.foldl_cons, cleanStep_real rooted out e (h e (by simp)),
      ih (fun x hx => h x (by simp [hx]))]
    simp

theorem foldl_cleanStep_dotdots (j k : Nat) :
    (List.replicate k ['.', '.']).foldl (filepath.cleanStep false)
        (List.replicate j ['.', '.'])
      = List.replicate (j + k) ['.', '.'] := by
  induction k generalizing j with
  | zero => rfl
  | succ k ih =>
    rw [List.replicate_succ, List.foldl_cons]
    have hstep : filepath.cleanStep false (List.replicate j ['.', '.']) ['.', '.']
        = List.replicate (j + 1) ['.', '.'] := by
      cases j with
      | zero => simp [filepath.cleanStep]
      | succ j => simp [filepath.cleanStep, List.replicate_succ]
    rw [hstep, ih (j + 1)]
    congr 1
    omega

/-- Cleaning the elements of a stack `Clean` can hold gives that stack back. -/
theorem foldl_cleanStep_good (rooted : Bool) (T : List (List Char)) (h : GoodStack rooted T) :
    T.reverse.foldl (filepath.cleanStep rooted) [] = T := by
  obtain ⟨reals, k, rfl, hk, hreals⟩ := h
  rw [List.reverse_append, List.foldl_append, List.reverse_replicate]
  have hdots : (List.replicate k ['.', '.']).foldl (filepath.cleanStep rooted) []
      = List.replicate k ['.', '.'] := by
    cases rooted with
    | true =>
      rw [hk rfl]
      rfl
    | false =>
      have := foldl_cleanStep_dotdots 0 k
      simpa using this
  rw [hdots, foldl_cleanStep_reals rooted _ (fun e he => hreals e (by simpa using he))]
  simp

theorem goodStack_nil (rooted : Bool) : GoodStack rooted [] :=
  ⟨[], 0, rfl, fun _ => rfl, by simp⟩

theorem goodStack_push (rooted : Bool) (T : List (List Char)) (e : List Char)
    (h : GoodStack rooted T) (he : RealElem e) : GoodStack rooted (e :: T) := by
  obtain ⟨reals, k, rfl, hk, hreals⟩ := h
  refine ⟨e :: reals, k, rfl, hk, ?_⟩
  intro x hx
  simp only [List.mem_cons] at hx
  rcases hx with rfl | hx
  · exact he
  · exact hreals x hx

theorem goodStack_cleanStep (rooted : Bool) (T : List (List Char)) (e : List Char)
    (h : GoodStack rooted T) (he : '/' ∉ e) : GoodStack rooted (filepath.cleanStep rooted T e) := by
  unfold filepath.cleanStep
  by_cases h1 : e = [] ∨ e = ['.']
  · simp only [h1, if_true]
    exact h
  · simp only [h1, if_false]
    by_cases h2 : e = ['.', '.']
    · simp only [h2, if_true]
      obtain ⟨reals, k, rfl, hk, hreals⟩ := h
      cases reals with
      | nil =>
        cases k with
        | zero =>
          simp only [List.replicate_zero, List.append_nil]
          cases rooted with
          | true => exact goodStack_nil true
          | false => exact ⟨[], 1, rfl, by simp, by simp⟩
        | succ k =>
          simp only [List.nil_append, List.replicate_succ, if_true]
          refine ⟨[], k + 2, by simp [List.replicate_succ], ?_, by simp⟩
          intro hr
          have := hk hr
          omega
      | cons top reals =>
        have htop : ¬ top = ['.', '.'] := (hreals top (by simp)).2.2.2
        simp only [List.cons_append, htop, if_false]
        exact ⟨reals, k, rfl, hk, fun x hx => hreals x (by simp [hx])⟩
    · simp only [h2, if_false]
      simp only [not_or] at h1
      exact goodStack_push rooted T e h ⟨h1.1, he, h1.2, h2⟩

theorem goodStack_foldl (rooted : Bool) (L : List (List Char)) (hL : ∀ e ∈ L, '/' ∉ e)
    (T : List (List Char)) (h : GoodStack rooted T) :
    GoodStack rooted (L.foldl (filepath.cleanStep rooted) T) := by
  induction L generalizing T with
  | nil => exact h
  | cons e L ih =>
    rw [List.foldl_cons]
    exact ih (fun x hx => hL x (by simp [hx])) _
      (goodStack_cleanStep rooted T e h (hL e (by simp)))

theorem goodStack_elem (rooted : Bool) (T : List (List Char)) (h : GoodStack rooted T) :
    ∀ e ∈ T, e ≠ [] ∧ '/' ∉ e := by
  obtain ⟨reals, k, rfl, -, hreals⟩ := h
  intro e he
  simp only [List.mem_append, List.mem_replicate] at he
  rcases he with he | ⟨-, rfl⟩
  · exact ⟨(hreals e he).1, (hreals e he).2.1⟩
  · exact ⟨by simp, by decide⟩

theorem joinSep_snoc_ne_nil (X : List (List Char)) (e : List Char) (he : e ≠ []) :
    filepath.joinSep (X ++ [e]) ≠ [] := by
  by_cases hX : X = []
  · subst hX
    simpa [filepath.joinSep] using he
  · rw [joinSep_append_singleton X e hX]
    simp

theorem renderPath_push (rooted : Bool) (T : List (List Char)) (e : List Char) (hT : T ≠ []) :
    renderPath rooted (e :: T) = renderPath rooted T ++ '/' :: e := by
  unfold renderPath
  rw [List.reverse_cons, joinSep_append_singleton _ _ (by simpa using hT)]
  simp

theorem cleanChars_cons (c : Char) (p : List Char) :
    filepath.cleanChars (c :: p) =
      if decide (c = '/') = true then
        '/' :: filepath.joinSep
          ((filepath.splitSep (c :: p)).foldl (filepath.cleanStep (decide (c = '/'))) []).reverse
      else if filepath.joinSep
          ((filepath.splitSep (c :: p)).foldl (filepath.cleanStep (decide (c = '/'))) []).reverse
          = [] then ['.']
      else filepath.joinSep
        ((filepath.splitSep (c :: p)).foldl (filepath.cleanStep (decide (c = '/'))) []).reverse :=
  rfl

/-- Cleaning `q/e` for a kept element `e`: the element is pushed on the stack of
`q`. -/
theorem cleanChars_child (c : Char) (q e : List Char) (he : RealElem e) :
    filepath.cleanChars ((c :: q) ++ '/' :: e) =
        renderPath (decide (c = '/'))
          (e :: (filepath.splitSep (c :: q)).foldl (filepath.cleanStep (decide (c = '/'))) []) ∧
      GoodStack (decide (c = '/'))
        (e :: (filepath.splitSep (c :: q)).foldl (filepath.cleanStep (decide (c = '/'))) []) := by
  constructor
  · rw [List.cons_append, cleanChars_cons, ← List.cons_append, splitSep_append_sep,
      splitSep_of_no_sep e he.2.1, List.foldl_append, List.foldl_cons, List.foldl_nil,
      cleanStep_real _ _ e he]
    have hne := joinSep_snoc_ne_nil
      ((filepath.splitSep (c :: q)).foldl (filepath.cleanStep (decide (c = '/'))) []).reverse
      e he.1
    rw [List.reverse_cons]
    unfold renderPath
    rw [List.reverse_cons]
    by_cases hc : c = '/'
    · simp [hc]
    · have hd : decide (c = '/') = false := by simp [hc]
      rw [hd] at hne ⊢
      simp [hne]
  · exact goodStack_push _ _ e
      (goodStack_foldl _ _ (no_sep_of_mem_splitSep _) [] (goodStack_nil _)) he

/-- The path rendered from a stack `Clean` can hold starts with a separator
exactly when it is rooted, and cleaning its elements gives the stack back. -/
theorem renderPath_good (rooted : Bool) (T : List (List Char)) (h : GoodStack rooted T)
    (hT : T ≠ []) :
    ∃ (c : Char) (rest : List Char), renderPath rooted T = c :: rest ∧
      decide (c = '/') = rooted ∧
      (filepath.splitSep (c :: rest)).foldl (filepath.cleanStep rooted) [] = T := by
  have helem := goodStack_elem rooted T h
  have hrev : T.reverse ≠ [] := by simpa using hT
  have hsplit : filepath.splitSep (filepath.joinSep T.reverse) = T.reverse :=
    splitSep_joinSep _ hrev (fun e he => (helem e (by simpa using he)).2)
  cases rooted with
  | true =>
    refine ⟨'/', filepath.joinSep T.reverse, by simp [renderPath], by simp, ?_⟩
    rw [splitSep_cons]
    simp only [if_true, List.foldl_cons]
    rw [hsplit]
    have : filepath.cleanStep true [] [] = [] := by simp [filepath.cleanStep]
    rw [this]
    exact foldl_cleanStep_good true T h
  | false =>
    cases hr : T.reverse with
    | nil => exact absurd hr hrev
    | cons x xs =>
      have hx := helem x (by
        have : x ∈ T.reverse := by rw [hr]; simp
        simpa using this)
      cases hxc : x with
      | nil => exact absurd hxc hx.1
      | cons c x1 =>
        have hc : ¬ c = '/' := by
          intro hc
          apply hx.2
          rw [hxc, hc]
          simp
        have hjoin : filepath.joinSep T.reverse = c :: (filepath.joinSep T.reverse).tail := by
          rw [hr, hxc]
          cases xs with
          | nil => simp [filepath.joinSep]
          | cons y ys => simp [joinSep_cons_cons]
        refine ⟨c, (filepath.joinSep T.reverse).tail, by simpa [renderPath] using hjoin,
          by simp [hc], ?_⟩
        rw [← hjoin, hsplit]
        exact foldl_cleanStep_good false T h

/-- Cleaning `d/e` for a cleaned path `d` and a kept element `e` appends the
element. -/
theorem cleanChars_clean_child (rooted : Bool) (T : List (List Char))
    (h : GoodStack rooted T) (hT : T ≠ []) (e : List Char) (he : RealElem e) :
    filepath.cleanChars (renderPath rooted T ++ '/' :: e) = renderPath rooted T ++ '/' :: e := by
  obtain ⟨c, rest, hcr, hc, hstack⟩ := renderPath_good rooted T h hT
  rw [hcr]
  have := (cleanChars_child c rest e he).1
  rw [hc, hstack] at this
  rw [this, renderPath_push rooted T e hT, hcr]

theorem Join_pair_data (o t : String) (ho : o ≠ "") :
    (filepath.Join [o, t]).data = filepath.cleanChars (o.data ++ '/' :: t.data) := by
  simp [filepath.Join, ho, filepath.Clean, String.intercalate, String.intercalate.go,
    String.data_append]

theorem Join_empty_left_data (t : String) (ht : t ≠ "") :
    (filepath.Join ["", t]).data = filepath.cleanChars t.data := by
  simp [filepath.Join, ht, filepath.Clean, String.intercalate, String.intercalate.go]

theorem string_ne_empty_of_data {s : String} (h : s.data ≠ []) : s ≠ "" := by
  intro hs
  subst hs
  exact h rfl

theorem cleanChars_real (e : List Char) (he : RealElem e) : filepath.cleanChars e = e := by
  cases hce : e with
  | nil => exact absurd hce he.1
  | cons c q =>
    have hns : '/' ∉ c :: q := hce ▸ he.2.1
    have hc : ¬ c = '/' := by
      intro hc
      apply hns
      rw [hc]
      simp
    rw [cleanChars_cons, splitSep_of_no_sep _ hns]
    simp only [List.foldl_cons, List.foldl_nil]
    rw [cleanStep_real _ _ _ (hce ▸ he)]
    simp [hc, filepath.joinSep]

/-- Under a given outputs root, the directory of a plan with a simple name is a
cleaned path that ends in that name. -/
theorem join_simple (o : String) :
    ∃ (rooted : Bool) (S : List (List Char)), GoodStack rooted S ∧
      ∀ t, SimpleName t → (filepath.Join [o, t]).data = renderPath rooted (t.data :: S) := by
  by_cases ho : o = ""
  · subst ho
    refine ⟨false, [], goodStack_nil false, ?_⟩
    intro t ht
    rw [Join_empty_left_data t (string_ne_empty_of_data ht.1), cleanChars_real t.data ht]
    simp [renderPath, filepath.joinSep]
  · cases hod : o.data with
    | nil =>
      exfalso
      apply ho
      exact String.ext hod
    | cons c q =>
      refine ⟨decide (c = '/'),
        (filepath.splitSep (c :: q)).foldl (filepath.cleanStep (decide (c = '/'))) [],
        goodStack_foldl _ _ (no_sep_of_mem_splitSep _) [] (goodStack_nil _), ?_⟩
      intro t ht
      rw [Join_pair_data o t ho, hod]
      exact (cleanChars_child c q t.data ht).1

/-- Under a given outputs root, the tarball path of a plan with a simple name is
a fixed text, then the name, then `/image.tar`. -/
theorem tarballPath_simple (o : String) :
    ∃ P : List Char, ∀ t, SimpleName t →
      (tarballPath o t).data = P ++ t.data ++ '/' :: "image.tar".data := by
  obtain ⟨rooted, S, hS, hjoin⟩ := join_simple o
  refine ⟨if S = [] then (if rooted then ['/'] else []) else renderPath rooted S ++ ['/'], ?_⟩
  intro t ht
  have hd := hjoin t ht
  have hgood : GoodStack rooted (t.data :: S) := goodStack_push rooted S t.data hS ht
  have himg : RealElem "image.tar".data := by
    unfold RealElem
    decide
  have hdne : (filepath.Join [o, t]).data ≠ [] := by
    rw [hd]
    unfold renderPath
    rw [List.reverse_cons]
    intro h
    exact joinSep_snoc_ne_nil S.reverse t.data ht.1 (List.append_eq_nil.1 h).2
  unfold tarballPath
  rw [Join_pair_data _ _ (string_ne_empty_of_data hdne), hd,
    cleanChars_clean_child rooted (t.data :: S) hgood (by simp) _ himg]
  by_cases hSn : S = []
  · subst hSn
    simp [renderPath, filepath.joinSep]
  · rw [renderPath_push rooted S t.data hSn]
    simp [hSn]

/-- Plans with different simple names have different tarball paths. -/
theorem tarballPath_injective (o a b : String) (ha : SimpleName a) (hb : SimpleName b)
    (h : tarballPath o a = tarballPath o b) : a = b := by
  obtain ⟨P, hP⟩ := tarballPath_simple o
  have h1 := hP a ha
  rw [h, hP b hb] at h1
  rw [List.append_assoc, List.append_assoc] at h1
  have h2 : b.data = a.data := List.append_cancel_right (List.append_cancel_left h1)
  exact String.ext h2.symm

theorem string_append_left_cancel (a x y : String) (h : a ++ x = a ++ y) : x = y := by
  have := congrArg String.data h
  simp only [String.data_append] at this
  exact String.ext (List.append_cancel_left this)

theorem filterMap_outputPath? {W R : Type} (sys : Sys W R) (w : W) (outputsDir : String)
    (names : List String) :
    names.filterMap (outputPath? sys w outputsDir) =
      (names.filter (fun n => sys.stat w (outputDir outputsDir n))).map
        (tarballPath outputsDir) := by
  induction names with
  | nil => rfl
  | cons n names ih =>
    by_cases h : sys.stat w (outputDir outputsDir n) = true
    · simp [List.filterMap_cons, outputPath?, h, ih]
    · simp [List.filterMap_cons, outputPath?, h, ih]

/-- The tarball paths handed to finalization are those of the plan names, in
plan order, whose directory exists. -/
theorem imagePaths_eq_filter {W R : Type} (sys : Sys W R) (w : W) (img : OCIImage)
    (outputsDir : String) (plans : Plans) (h : (compile sys w img outputsDir).1 = .ok plans) :
    plans.imagePaths =
      ((img.AdditionalTargets ++ ["image"]).filter
        (fun n => sys.stat w (outputDir outputsDir n))).map (tarballPath outputsDir) := by
  obtain ⟨-, -, -, -, hpaths⟩ := compile_ok_plans sys w img outputsDir plans h
  rw [hpaths, List.filter_append, List.map_append, filterMap_outputPath?]
  congr 1
  by_cases hs : sys.stat w (outputDir outputsDir "image") = true
  · simp [outputPath?, hs]
  · simp [outputPath?, hs]

/-- The output destinations of the plan at position `i` are decided by the name
at position `i`: the additional target's, or `image` for the last plan. -/
theorem plan_outputValues {W R : Type} (sys : Sys W R) (w : W) (img : OCIImage)
    (outputsDir : String) (plans : Plans) (h : (compile sys w img outputsDir).1 = .ok plans)
    (i : Nat) (args : List String) (hi : plans.builds[i]? = some args) :
    ∃ name, (img.AdditionalTargets ++ ["image"])[i]? = some name ∧
      outputValues args = (if sys.stat w (outputDir outputsDir name) then
        ["type=docker,dest=" ++ tarballPath outputsDir name] else []) := by
  obtain ⟨base, hb, hbuilds, -, -⟩ := compile_ok_plans sys w img outputsDir plans h
  rw [hbuilds] at hi
  rcases Nat.lt_trichotomy i img.AdditionalTargets.length with hlt | heq | hgt
  · have ht := List.getElem?_eq_getElem hlt
    have := getElem?_map_append
      (fun t => base ++ ["--opt", "target=" ++ t] ++ outputOption sys w outputsDir t)
      img.AdditionalTargets
      (base ++ outputOption sys w outputsDir "image"
        ++ (if img.Target = "" then [] else ["--opt", "target=" ++ img.Target])
        ++ (if img.AddHosts = "" then [] else ["--opt", "add-hosts=" ++ img.AddHosts]))
      i _ ht
    rw [this] at hi
    cases hi
    refine ⟨img.AdditionalTargets[i], ?_, (targetPlan_options sys w outputsDir base hb _).2.2.1⟩
    rw [List.getElem?_append_left hlt, ht]
  · subst heq
    rw [getElem?_length_map_append] at hi
    cases hi
    refine ⟨"image", ?_, (primaryPlan_options sys w img outputsDir base hb).2.2.1⟩
    rw [List.getElem?_append_right (Nat.le_refl _)]
    simp
  · rw [List.getElem?_eq_none (by simp; omega)] at hi
    cases hi

theorem getElem?_inj_of_nodup {α : Type} {l : List α} (h : l.Nodup) {i j : Nat} {a : α}
    (hi : l[i]? = some a) (hj : l[j]? = some a) : i = j := by
  rw [List.nodup_iff_getElem?_ne_getElem?] at h
  have hil : i < l.length := by
    rcases Nat.lt_or_ge i l.length with h1 | h1
    · exact h1
    · rw [List.getElem?_eq_none h1] at hi; cases hi
  have hjl : j < l.length := by
    rcases Nat.lt_or_ge j l.length with h1 | h1
    · exact h1
    · rw [List.getElem?_eq_none h1] at hj; cases hj
  rcases Nat.lt_trichotomy i j with hlt | heq | hgt
  · exact absurd (hi.trans hj.symm) (h i j hlt hjl)
  · exact heq
  · exact absurd (hj.trans hi.symm) (h j i hgt hil)

/-- C13 fails on the code as stated: the single additional target `image` is a
list of pairwise distinct names, yet its plan and the primary plan are both
given `/out/image/image.tar`, the second build overwrites the tarball of the
first, and `Build` finalizes that path twice.  So are the distinct names `a` and
`./a` both given `/out/a/image.tar`. -/
theorem distinct_names_share_tarball_path :
    imageTarget.AdditionalTargets.Nodup ∧
      (compile sampleSys sampleWorld imageTarget "/out").1
        = .ok ⟨[twoTargetsBase ++
              ["--opt", "target=image", "--output", "type=docker,dest=/out/image/image.tar"],
            twoTargetsBase ++ ["--output", "type=docker,dest=/out/image/image.tar"]],
          ["image", ""], ["/out/image/image.tar", "/out/image/image.tar"]⟩ ∧
      tarballPath "/out" "image" = "/out/image/image.tar" ∧
      (Build sampleSys sampleWorld imageTarget sampleDaemon "/out").events.count
        (Event.finalize "/out/image/image.tar") = 2 ∧
      dottedTargets.AdditionalTargets.Nodup ∧
      tarballPath "/out" "a" = tarballPath "/out" "./a" ∧
      (compile sampleSys sampleWorld dottedTargets "/out").1
        = .ok ⟨[twoTargetsBase ++
              ["--opt", "target=a", "--output", "type=docker,dest=/out/a/image.tar"],
            twoTargetsBase ++
              ["--opt", "target=./a", "--output", "type=docker,dest=/out/a/image.tar"],
            twoTargetsBase ++ ["--output", "type=docker,dest=/out/image/image.tar"]],
          ["a", "./a", ""],
          ["/out/a/image.tar", "/out/a/image.tar", "/out/image/image.tar"]⟩ := by
  decide

/-- C13 as amended: output destinations do not collide for simple target names
other than `image`.  For every request whose additional target names are
pairwise distinct, each a single path element (not empty, without `/`, neither
`.` nor `..`) and none `image`, and for every outputs root and filesystem state:
the tarball paths `<outputs>/<t>/image.tar` of the additional targets and
`<outputs>/image/image.tar` of the primary plan are pairwise distinct; whenever
plans are compiled, the paths handed to finalization have no repetition, plans
at different positions share no output destination, no tarball path is
finalized twice by the loop whatever the world, and `Build` finalizes no path
twice. -/
theorem output_paths_distinct_for_simple_names {W R : Type} (sys : Sys W R) (w : W)
    (img : OCIImage) (buildkitd : Buildkitd) (outputsDir : String)
    (hsimple : ∀ t ∈ img.AdditionalTargets, SimpleName t ∧ t ≠ "image")
    (hdistinct : img.AdditionalTargets.Nodup) :
    ((img.AdditionalTargets ++ ["image"]).map (tarballPath outputsDir)).Nodup ∧
    ∀ plans, (compile sys w img outputsDir).1 = .ok plans →
      plans.imagePaths.Nodup ∧
      (∀ (i j : Nat) (ai aj : List String), i ≠ j →
        plans.builds[i]? = some ai → plans.builds[j]? = some aj →
        ∀ v ∈ outputValues ai, v ∉ outputValues aj) ∧
      (∀ w0, (finalizeAll sys (defaulted img) w0 plans.imagePaths).paths.Nodup) ∧
      ∀ p, (Build sys w img buildkitd outputsDir).events.count (Event.finalize p) ≤ 1 := by
  have himage : SimpleName "image" := by
    unfold SimpleName
    decide
  have hnames : (img.AdditionalTargets ++ ["image"]).Nodup := by
    rw [List.nodup_append]
    refine ⟨hdistinct, by simp, ?_⟩
    intro a ha hb
    simp only [List.mem_singleton] at hb
    exact (hsimple a ha).2 hb
  have hall : ∀ t ∈ img.AdditionalTargets ++ ["image"], SimpleName t := by
    intro t ht
    simp only [List.mem_append, List.mem_singleton] at ht
    rcases ht with ht | rfl
    · exact (hsimple t ht).1
    · exact himage
  have hmap : ((img.AdditionalTargets ++ ["image"]).map (tarballPath outputsDir)).Nodup :=
    List.Nodup.map_on
      (fun x hx y hy hxy => tarballPath_injective outputsDir x y (hall x hx) (hall y hy) hxy)
      hnames
  refine ⟨hmap, ?_⟩
  intro plans hc
  have hpaths : plans.imagePaths.Nodup := by
    rw [imagePaths_eq_filter sys w img outputsDir plans hc]
    exact List.Nodup.sublist (List.Sublist.map _ (List.filter_sublist _)) hmap
  have hfin : ∀ w0, (finalizeAll sys (defaulted img) w0 plans.imagePaths).paths.Nodup :=
    fun w0 => List.Nodup.sublist
      (finalizeAll_spec sys (defaulted img) w0 plans.imagePaths).1.sublist hpaths
  refine ⟨hpaths, ?_, hfin, ?_⟩
  · intro i j ai aj hij hi hj v hvi hvj
    obtain ⟨ni, hni, hoi⟩ := plan_outputValues sys w img outputsDir plans hc i ai hi
    obtain ⟨nj, hnj, hoj⟩ := plan_outputValues sys w img outputsDir plans hc j aj hj
    rw [hoi] at hvi
    rw [hoj] at hvj
    split at hvi
    · split at hvj
      · simp only [List.mem_singleton] at hvi hvj
        have hp : tarballPath outputsDir ni = tarballPath outputsDir nj :=
          string_append_left_cancel _ _ _ (hvi.symm.trans hvj)
        have hn : ni = nj := tarballPath_injective outputsDir ni nj
          (hall ni (List.getElem?_mem hni)) (hall nj (List.getElem?_mem hnj)) hp
        subst hn
        exact hij (getElem?_inj_of_nodup hnames hni hnj)
      · simp at hvj
    · simp at hvi
  · intro p
    have hB := Build_of_compile_ok sys w img buildkitd outputsDir plans hc
    have hnone : ∀ (evs : List Event),
        (∀ ev ∈ evs, (∃ m, ev = Event.loadRegistry m) ∨ ev = Event.serveRegistry) →
        evs.count (Event.finalize p) = 0 := by
      intro evs hevs
      rw [List.count_eq_zero]
      intro hmem
      rcases hevs _ hmem with ⟨m, hm⟩ | hm <;> cases hm
    have htrace : ∀ (tr : List (Invocation W)),
        (tr.map (Invocation.toEvent buildkitd.Addr)).count (Event.finalize p) = 0 := by
      intro tr
      rw [List.count_eq_zero]
      intro hmem
      simp only [List.mem_map] at hmem
      obtain ⟨x, -, hx⟩ := hmem
      simp [Invocation.toEvent] at hx
    have hinj : Function.Injective Event.finalize := fun a b hab => by cases hab; rfl
    rw [hB]
    split
    · simp [List.count_append, hnone _ (compile_events sys w img outputsDir), htrace]
    · simp only [List.count_append, hnone _ (compile_events sys w img outputsDir), htrace,
        Nat.zero_add, List.count_map_of_injective _ _ hinj]
      exact List.nodup_iff_count_le_one.1 (hfin _) p

/-- C13 as amended, on a request with the simple names `a` and `b`: the three
tarball paths differ and `Build` finalizes `/out/a/image.tar` once. -/
theorem output_paths_distinct_for_simple_names_witness :
    (∀ t ∈ twoTargets.AdditionalTargets, SimpleName t ∧ t ≠ "image") ∧
      twoTargets.AdditionalTargets.Nodup ∧
      ((twoTargets.AdditionalTargets ++ ["image"]).map (tarballPath "/out")).Nodup ∧
      (twoTargets.AdditionalTargets ++ ["image"]).map (tarballPath "/out")
        = ["/out/a/image.tar", "/out/b/image.tar", "/out/image/image.tar"] ∧
      (Build sampleSys sampleWorld twoTargets sampleDaemon "/out").events.count
        (Event.finalize "/out/a/image.tar") = 1 :=
  ⟨by decide, by decide,
    (output_paths_distinct_for_simple_names sampleSys sampleWorld twoTargets sampleDaemon "/out"
      (by decide) (by decide)).1,
    by decide, by decide⟩

end OciImage
